import Mathlib

/-!
Verification of the Bridge BitTorrent client engine against its
natural-language specification.

The Python sources are shallowly embedded: byte strings become `List Nat`
(one entry per byte), Python exceptions become `Except PyErr`, and the
dynamically typed bencoded values become the tagged union `PyVal`.  Every
definition is translated from the repository's source files (the file and
function are named in each doc comment); external library calls
(`hashlib.sha1`, file I/O) are abstracted as explicit parameters or modelled
by their documented contract.
-/

namespace Bridge

/-- A Python byte string, one `Nat` (0–255) per byte. -/
abbrev Bytes := List Nat

/-- The Python exceptions that the embedded code can raise. -/
inductive PyErr where
  | runtimeError
  | valueError
  | typeError
  | indexError
  | keyError
  | attributeError
  | structError
  | invalidTorrent
  | fuelError
deriving DecidableEq, Repr

/-- The dynamically-typed values flowing through `src/src/bencoding.py`:
Python `bytes`/`bytearray`, `str`, `int`, `list` and (ordered) `dict`.
Strings are represented by their byte encoding (faithful for the ASCII
data exercised here). -/
inductive PyVal where
  | pybytes (bs : Bytes)
  | pystr (s : Bytes)
  | pyint (n : Int)
  | pylist (xs : List PyVal)
  | pydict (kvs : List (PyVal × PyVal))
deriving Repr

/-- ASCII test used throughout `src/src/bencoding.py` (`is_byte_digit`). -/
def is_byte_digit (b : Nat) : Bool := 48 ≤ b && b ≤ 57

/-- Value of an ASCII digit string (the `int(current_num.decode())` call in
`extract_int`): most-significant digit first. -/
def parseDigits (ds : Bytes) : Nat := ds.foldl (fun a d => 10 * a + (d - 48)) 0

/-- `extract_int` from `src/src/bencoding.py`: consumes the leading ASCII
digits.  If the digit run reaches the end of the input the `while` loop
indexes past the end (`IndexError`); if there are no digits, `int('')`
raises `ValueError`. -/
def extract_int (s : Bytes) : Except PyErr (Nat × Bytes) :=
  let ds := s.takeWhile is_byte_digit
  if ds.length = s.length then .error .indexError
  else if ds.isEmpty then .error .valueError
  else .ok (parseDigits ds, s.drop ds.length)

/-- `_decode_bytestring`: after `extract_int`, expects `:` (byte 58), then
slices `remainder[1:length+1]` and `remainder[length+1:]` (Python slices are
forgiving past the end, as are `take`/`drop`). -/
def decode_bytestring (s : Bytes) : Except PyErr (Option PyVal × Option Bytes) := do
  let (len, rem) ← extract_int s
  match rem with
  | 58 :: tail => .ok (some (.pybytes (tail.take len)), some (tail.drop len))
  | _ => .error .runtimeError

/-- `_decode_int`: strips the leading `i` (byte 105), extracts the integer,
expects a terminating `e` (byte 101). -/
def decode_int (s : Bytes) : Except PyErr (Option PyVal × Option Bytes) := do
  let (v, rem) ← extract_int (s.drop 1)
  match rem with
  | 101 :: tail => .ok (some (.pyint (v : Int)), some tail)
  | _ => .error .runtimeError

/-- Python hashability of the values `decode` can produce: `bytes`, `str`
and `int` are hashable; `list` and `OrderedDict` are not, so using one as a
dictionary key raises `TypeError`.  (Byte-string keys are hashable because
every call site feeds `decode` a `bytes` object — `f.read()` — whose slices
are `bytes`, the annotation `bytearray` notwithstanding.) -/
def pyHashable : PyVal → Bool
  | .pybytes _ => true
  | .pystr _ => true
  | .pyint _ => true
  | .pylist _ => false
  | .pydict _ => false

/-- Python `==` on the hashable decoded values used as dictionary keys:
equal only within the same type (`b"a" == "a"` is `False` in Python 3). -/
def pyKeyEq : PyVal → PyVal → Bool
  | .pybytes a, .pybytes b => a == b
  | .pystr a, .pystr b => a == b
  | .pyint a, .pyint b => a == b
  | _, _ => false

/-- The assignment `dict_accumulator[key] = value` on an insertion-ordered
dictionary: an existing equal key keeps its position (and original key
object) and has its value overwritten; otherwise the pair is appended. -/
def dictAssign (kvs : List (PyVal × PyVal)) (k v : PyVal) : List (PyVal × PyVal) :=
  if kvs.any (fun kv => pyKeyEq kv.1 k) then
    kvs.map (fun kv => if pyKeyEq kv.1 k then (kv.1, v) else kv)
  else kvs ++ [(k, v)]

mutual

/-- `decode` from `src/src/bencoding.py`, with explicit fuel for the mutual
recursion.  Empty input returns `(None, None)`; a byte that is not a digit,
`i` (105), `l` (108) or `d` (100) raises `RuntimeError('Malformed Input …')`. -/
def decodeF : Nat → Bytes → Except PyErr (Option PyVal × Option Bytes)
  | 0, _ => .error .fuelError
  | _ + 1, [] => .ok (none, none)
  | f + 1, c :: rest =>
    if is_byte_digit c then decode_bytestring (c :: rest)
    else if c = 105 then decode_int (c :: rest)
    else if c = 108 then decode_list_loop f rest []
    else if c = 100 then decode_dict_loop f rest []
    else .error .runtimeError

/-- The `while` loop of `_decode_list`.  When the recursive `decode` returns
`(None, None)` (empty remainder) the Python code appends `None` and then
calls `len(None)`, a `TypeError`.  The loop stops when the remainder is
empty or starts with `e`, returning `remainder[1:]`. -/
def decode_list_loop : Nat → Bytes → List PyVal → Except PyErr (Option PyVal × Option Bytes)
  | 0, _, _ => .error .fuelError
  | f + 1, rem, acc =>
    match decodeF f rem with
    | .error e => .error e
    | .ok (none, _) => .error .typeError
    | .ok (some _, none) => .error .typeError
    | .ok (some v, some rem') =>
      if rem'.isEmpty || rem'.head? = some 101 then
        .ok (some (.pylist (acc ++ [v])), some (rem'.drop 1))
      else
        decode_list_loop f rem' (acc ++ [v])

/-- The `while` loop of `_decode_dict`: decodes a key then a value and
performs `dict_accumulator[key] = value`, which raises `TypeError` when the
key is unhashable (a decoded list or dictionary) and overwrites the value
of an already-present equal key (`dictAssign`).  If either recursive call
hits the end of input and returns `(None, None)`, the subsequent
`decode(None)` / `len(None)` raises `TypeError`. -/
def decode_dict_loop : Nat → Bytes → List (PyVal × PyVal) →
    Except PyErr (Option PyVal × Option Bytes)
  | 0, _, _ => .error .fuelError
  | f + 1, rem, acc =>
    match decodeF f rem with
    | .error e => .error e
    | .ok (none, _) => .error .typeError
    | .ok (some _, none) => .error .typeError
    | .ok (some k, some r1) =>
      match decodeF f r1 with
      | .error e => .error e
      | .ok (none, _) => .error .typeError
      | .ok (some _, none) => .error .typeError
      | .ok (some v, some rem') =>
        if pyHashable k then
          if rem'.isEmpty || rem'.head? = some 101 then
            .ok (some (.pydict (dictAssign acc k v)), some (rem'.drop 1))
          else
            decode_dict_loop f rem' (dictAssign acc k v)
        else .error .typeError

end

/-- Entry point `bencoding.decode`: the fuel `2 * length + 2` is enough for
every input the theorems below exercise (proved where used). -/
def decode (s : Bytes) : Except PyErr (Option PyVal × Option Bytes) :=
  decodeF (2 * s.length + 2) s

/-- Base-10 ASCII digits of `n`, most significant first, by fuel recursion
(`fuel ≥ n` suffices since `n / 10 < n` for `n ≠ 0`). -/
def toDigitsFuel : Nat → Nat → Bytes
  | 0, _ => []
  | fuel + 1, n => if n = 0 then [] else toDigitsFuel fuel (n / 10) ++ [n % 10 + 48]

/-- ASCII decimal rendering of a natural number (`str(n)` for `n ≥ 0`). -/
def natStr (n : Nat) : Bytes :=
  if n = 0 then [48] else toDigitsFuel n n

/-- ASCII decimal rendering of a Python integer (`str(n)`), with `-` = 45. -/
def intStr (n : Int) : Bytes :=
  if n < 0 then 45 :: natStr n.natAbs else natStr n.natAbs

mutual

/-- `encode` from `src/src/bencoding.py`.  The `if`/`elif` chain handles
`str`, `int`, `list` and `dict`; any other type — in particular the
`bytes`/`bytearray` values produced by `decode` — falls off the end and the
function returns Python `None` (here `none`).  A `None` appearing inside
`b''.join(...)` or `encode(key) + encode(value)` raises `TypeError`, which
we also fold into `none`. -/
def encode : PyVal → Option Bytes
  | .pystr s => some (natStr s.length ++ 58 :: s)
  | .pyint n => some (105 :: intStr n ++ [101])
  | .pylist xs =>
    match encodeItems xs with
    | some bs => some (108 :: bs ++ [101])
    | none => none
  | .pydict kvs =>
    match encodeKVs kvs with
    | some bs => some (100 :: bs ++ [101])
    | none => none
  | .pybytes _ => none

/-- The concatenation `b''.join([encode(item) for item in data])`. -/
def encodeItems : List PyVal → Option Bytes
  | [] => some []
  | v :: vs =>
    match encode v, encodeItems vs with
    | some b, some bs => some (b ++ bs)
    | _, _ => none

/-- The concatenation `b''.join([encode(key) + encode(value) …])`. -/
def encodeKVs : List (PyVal × PyVal) → Option Bytes
  | [] => some []
  | (k, v) :: kvs =>
    match encode k, encode v, encodeKVs kvs with
    | some bk, some bv, some bs => some (bk ++ bv ++ bs)
    | _, _, _ => none

end

/-! ## Wire codec — the message classes of `src/src/bridge/peer.py` -/

/-- Big-endian 4-byte encoding of a 32-bit value (`struct.pack(">I", n)`);
the inputs exercised here are all below 2³². -/
def u32be (n : Nat) : Bytes := [n / 2 ^ 24 % 256, n / 2 ^ 16 % 256, n / 2 ^ 8 % 256, n % 256]

/-- Big-endian 2-byte encoding (`struct.pack(">H", n)`). -/
def u16be (n : Nat) : Bytes := [n / 2 ^ 8 % 256, n % 256]

/-- `struct.unpack(">I", bs)`: requires exactly 4 bytes, else `struct.error`. -/
def unpack32 (bs : Bytes) : Except PyErr Nat :=
  match bs with
  | [a, b, c, d] => .ok (a * 2 ^ 24 + b * 2 ^ 16 + c * 2 ^ 8 + d)
  | _ => .error .structError

/-- `struct.unpack(">H", bs)`: requires exactly 2 bytes. -/
def unpack16 (bs : Bytes) : Except PyErr Nat :=
  match bs with
  | [a, b] => .ok (a * 2 ^ 8 + b)
  | _ => .error .structError

/-- The eleven wire messages of `src/src/bridge/peer.py` (one subclass of
`PeerMessage` each; the `have` constructor is renamed `haveMsg` and
`piece`/`BlockPeerMessage` is `blockMsg` because of Lean keywords). -/
inductive PeerMsg where
  | keepAlive
  | choke
  | unchoke
  | interested
  | notInterested
  | haveMsg (pieceIndex : Nat)
  | bitfield (bf : Bytes)
  | request (index start size : Nat)
  | blockMsg (index start : Nat) (block : Bytes)
  | cancel (index start size : Nat)
  | port (p : Nat)
deriving DecidableEq, Repr

/-- The `encode` methods of the `PeerMessage` subclasses: the base class
emits `struct.pack(">Ib", length, message_id)` and each subclass appends its
payload (`KeepAlivePeerMessage.encode` returns `bytes(4)`). -/
def PeerMsg.encode : PeerMsg → Bytes
  | .keepAlive => [0, 0, 0, 0]
  | .choke => u32be 1 ++ [0]
  | .unchoke => u32be 1 ++ [1]
  | .interested => u32be 1 ++ [2]
  | .notInterested => u32be 1 ++ [3]
  | .haveMsg i => u32be 5 ++ [4] ++ u32be i
  | .bitfield bf => u32be (1 + bf.length) ++ [5] ++ bf
  | .request i b s => u32be 13 ++ [6] ++ u32be i ++ u32be b ++ u32be s
  | .blockMsg i b blk => u32be (9 + blk.length) ++ [7] ++ u32be i ++ u32be b ++ blk
  | .cancel i b s => u32be 13 ++ [8] ++ u32be i ++ u32be b ++ u32be s
  | .port p => u32be 3 ++ [9] ++ u16be p

/-- The `PeerMessage.id_map[message_id].decode(data[1:])` dispatch of
`src/src/bridge/peer.py`: the class registered for each id decodes the
payload (ids 0–3 ignore it); an id absent from `id_map` raises `KeyError`. -/
def decodeBody (id : Nat) (payload : Bytes) : Except PyErr PeerMsg :=
  match id with
  | 0 => .ok .choke
  | 1 => .ok .unchoke
  | 2 => .ok .interested
  | 3 => .ok .notInterested
  | 4 => (unpack32 payload).map .haveMsg
  | 5 => .ok (.bitfield payload)
  | 6 =>
    if payload.length = 12 then do
      let i ← unpack32 (payload.take 4)
      let b ← unpack32 ((payload.drop 4).take 4)
      let s ← unpack32 (payload.drop 8)
      .ok (.request i b s)
    else .error .structError
  | 7 =>
    if 8 ≤ payload.length then do
      let i ← unpack32 (payload.take 4)
      let b ← unpack32 ((payload.drop 4).take 4)
      .ok (.blockMsg i b (payload.drop 8))
    else .error .structError
  | 8 =>
    if payload.length = 12 then do
      let i ← unpack32 (payload.take 4)
      let b ← unpack32 ((payload.drop 4).take 4)
      let s ← unpack32 (payload.drop 8)
      .ok (.cancel i b s)
    else .error .structError
  | 9 => (unpack16 payload).map .port
  | _ => .error .keyError

/-! ## The streaming frame iterator (`PeerMessageIterator.__anext__`) -/

/-- The byte source behind the iterator.  `read n` returns at most `n`
bytes; with `cap = some c` it returns at most `c` bytes per call (the
`reader_size` mock of `src/src/tests/test_peers.py` and real
`asyncio.StreamReader.read` semantics).  An exhausted reader returns `b""`. -/
structure Reader where
  buf : Bytes
  cap : Option Nat
deriving DecidableEq, Repr

/-- One `read(n)` call. -/
def Reader.read (r : Reader) (n : Nat) : Bytes × Reader :=
  let k := match r.cap with
    | none => n
    | some c => min c n
  (r.buf.take k, ⟨r.buf.drop k, r.cap⟩)

/-- Result of one `__anext__` call: a message plus the rest of the stream,
normal end of iteration (`StopAsyncIteration`), or an uncaught exception. -/
inductive IterStep where
  | stop
  | err (e : PyErr)
  | msg (m : PeerMsg) (rest : Reader)
deriving DecidableEq, Repr

/-- `PeerMessageIterator.__anext__` from `src/src/bridge/peer.py`: reads 4
bytes, stops on `b""`, unpacks the big-endian length (`struct.error` on a
short read is not caught), yields keep-alive on length 0, then issues a
single `read(length)` — with no re-read or buffering on a partial result —
and dispatches on `data[0]`.  `KeyError` (unknown id) is caught and turned
into `StopAsyncIteration`. -/
def iterNext (r : Reader) : IterStep :=
  let (lengthPrefix, r1) := r.read 4
  if lengthPrefix = [] then .stop
  else
    match unpack32 lengthPrefix with
    | .error e => .err e
    | .ok 0 => .msg .keepAlive r1
    | .ok len =>
      let (data, r2) := r1.read len
      match data with
      | [] => .err .indexError
      | id :: payload =>
        match decodeBody id payload with
        | .ok m => .msg m r2
        | .error .keyError => .stop
        | .error e => .err e

/-- Driving the iterator to exhaustion (the `async for` loop), with fuel. -/
def iterRun : Nat → Reader → List PeerMsg × Option PyErr
  | 0, _ => ([], some .fuelError)
  | f + 1, r =>
    match iterNext r with
    | .stop => ([], none)
    | .err e => ([], some e)
    | .msg m r' =>
      let (ms, e) := iterRun f r'
      (m :: ms, e)

/-! ## `encode_peer_message` from `src/bridge/protocol.py` -/

/-- The `PeerMessage` `IntEnum` of `src/bridge/protocol.py`. -/
inductive PMsgId where
  | keep_alive
  | choke
  | unchoke
  | interested
  | not_interested
  | haveId
  | bitfieldId
  | requestId
  | pieceId
  | cancelId
  | portId
deriving DecidableEq, Repr

/-- The enum's `value` attribute (`keep_alive = -1`, …, `port = 9`). -/
def PMsgId.val : PMsgId → Int
  | .keep_alive => -1
  | .choke => 0
  | .unchoke => 1
  | .interested => 2
  | .not_interested => 3
  | .haveId => 4
  | .bitfieldId => 5
  | .requestId => 6
  | .pieceId => 7
  | .cancelId => 8
  | .portId => 9

/-- The untyped `data: Any` payload argument of `encode_peer_message`. -/
inductive PyData where
  | pnone
  | pint (n : Nat)
  | pbytes (bs : Bytes)
  | ptup (xs : List PyData)
deriving Repr

/-- Python subscription `data[i]`: tuples and bytes are subscriptable
(`IndexError` when out of range), `int` and `None` raise `TypeError`. -/
def PyData.sub (d : PyData) (i : Nat) : Except PyErr PyData :=
  match d with
  | .ptup xs =>
    match xs[i]? with
    | some x => .ok x
    | none => .error .indexError
  | .pbytes bs =>
    match bs[i]? with
    | some b => .ok (.pint b)
    | none => .error .indexError
  | _ => .error .typeError

/-- `struct.pack(">I", data)` on a dynamic value: `struct.error` unless it
is an `int`. -/
def packI (d : PyData) : Except PyErr Bytes :=
  match d with
  | .pint n => .ok (u32be n)
  | _ => .error .structError

/-- `len(data)`: only bytes and tuples have a length here. -/
def PyData.pyLen (d : PyData) : Except PyErr Nat :=
  match d with
  | .pbytes bs => .ok bs.length
  | .ptup xs => .ok xs.length
  | _ => .error .typeError

/-- `bytes + data` concatenation: `TypeError` unless `data` is bytes. -/
def PyData.asBytes (d : PyData) : Except PyErr Bytes :=
  match d with
  | .pbytes bs => .ok bs
  | _ => .error .typeError

/-- `encode_peer_message` from `src/bridge/protocol.py`, branch for branch.
Note the condition `m is PeerMessage.piece or PeerMessage.cancel`: the right
operand is a (truthy) enum member, so the branch is taken for every message
that reaches it — including `port`, whose own branch is unreachable. -/
def encode_peer_message (m : PMsgId) (data : PyData) : Except PyErr Bytes :=
  if m = .keep_alive then .ok (u32be 0)
  else if 0 ≤ m.val && m.val ≤ 3 then .ok (u32be 1 ++ [m.val.toNat])
  else if m = .haveId then do
    let payload ← packI data
    .ok (u32be 5 ++ [4] ++ payload)
  else if m = .bitfieldId then do
    let n ← data.pyLen
    let bs ← data.asBytes
    .ok (u32be (1 + n) ++ [5] ++ bs)
  else if m = .requestId then do
    let p0 ← packI (← data.sub 0)
    let p1 ← packI (← data.sub 1)
    let p2 ← packI (← data.sub 2)
    .ok (u32be 13 ++ [6] ++ p0 ++ p1 ++ p2)
  else if m = .pieceId || true then do
    let header ←
      if m = .pieceId then do
        let tl ← (← data.sub 2).pyLen
        pure (u32be (9 + tl))
      else pure (u32be 13)
    let p0 ← packI (← data.sub 0)
    let p1 ← packI (← data.sub 1)
    let tailBytes ← (← data.sub 2).asBytes
    .ok (header ++ [m.val.toNat] ++ p0 ++ p1 ++ tailBytes)
  else if m = .portId then do
    let p ← data.sub 0
    let bs ← packI p
    .ok (u32be 3 ++ [9] ++ bs)
  else .ok []

/-! ## Handshake messages (both generations) -/

/-- The default `PROTOCOL_STRING = "BitTorrent protocol"` as bytes. -/
def PROTOCOL_STRING : Bytes :=
  [66, 105, 116, 84, 111, 114, 114, 101, 110, 116, 32,
   112, 114, 111, 116, 111, 99, 111, 108]

/-- Decoded handshake fields.  Both generations construct an object with
attributes `info_hash`, `peer_id`, `protocol_string`, `reserved`; strings
are kept as their byte encodings. -/
structure Handshake where
  info_hash : Bytes
  peer_id : Bytes
  protocol_string : Bytes
  reserved : Bytes
deriving DecidableEq, Repr

/-- `HandshakeMessage.encode` (same in `src/src/bridge/peer.py` and
`src/bridge/peer.py`): `pstrlen ‖ pstr ‖ reserved ‖ info_hash ‖ peer_id`. -/
def Handshake.encode (h : Handshake) : Bytes :=
  h.protocol_string.length :: h.protocol_string ++ h.reserved ++ h.info_hash ++ h.peer_id

/-- A handshake built by `HandshakeMessage(info_hash, peer_id)` with the
default protocol string and zero reserved bytes. -/
def mkHandshake (info_hash peer_id : Bytes) : Handshake :=
  ⟨info_hash, peer_id, PROTOCOL_STRING, List.replicate 8 0⟩

/-- `HandshakeMessage.decode` from `src/src/bridge/peer.py`: slices the
buffer at `1`, `1+pstrlen`, `+8`, `+20` and passes the fields back with
keyword arguments (so each lands in the right attribute).  `data[0]` on an
empty buffer raises `IndexError`. -/
def HandshakeMessage.decode (data : Bytes) : Except PyErr Handshake :=
  match data with
  | [] => .error .indexError
  | pstrlen :: _ =>
    let reserved_index := 1 + pstrlen
    let info_hash_index := reserved_index + 8
    let peer_id_index := info_hash_index + 20
    .ok { info_hash := (data.drop info_hash_index).take 20
          peer_id := data.drop peer_id_index
          protocol_string := (data.drop 1).take pstrlen
          reserved := (data.drop reserved_index).take 8 }

/-- `HandshakeMessage.decode` from `src/bridge/peer.py`: same slicing, but
the result is built with `cls(pstring, reserved, info_hash, peer_id)` —
positional arguments against the constructor signature
`(info_hash, peer_id, protocol_string, reserved)`, so every field lands in
the wrong attribute. -/
def HandshakeMessage.decodeOldLayout (data : Bytes) : Except PyErr Handshake :=
  match data with
  | [] => .error .indexError
  | pstrlen :: _ =>
    let reserved_index := 1 + pstrlen
    let info_hash_index := reserved_index + 8
    let peer_id_index := info_hash_index + 20
    .ok { info_hash := (data.drop 1).take pstrlen
          peer_id := (data.drop reserved_index).take 8
          protocol_string := (data.drop info_hash_index).take 20
          reserved := data.drop peer_id_index }

/-! ## Piece and Torrent engine (`src/src/bridge/data.py`) -/

/-- `BLOCK_REQUEST_SIZE = 2**15`. -/
def BLOCK_REQUEST_SIZE : Nat := 2 ^ 15

/-- The `TorrentFile` namedtuple. -/
structure TorrentFile where
  path : Bytes
  filename : Bytes
  size : Nat
  piece_pointer : Nat
deriving DecidableEq, Repr

/-- A `Piece`: hash, size, growable buffer and the three state flags set by
`recycle`/`download`/`verify`/`save` (EMPTY = all flags false, FULL =
`downloaded`, then `verified`, then `saved`). -/
structure Piece where
  piece_hash : Bytes
  piece_size : Nat
  buffer : Bytes
  downloaded : Bool
  verified : Bool
  saved : Bool
deriving DecidableEq, Repr

/-- `Piece.recycle`: clears the buffer and all flags. -/
def Piece.recycle (p : Piece) : Piece :=
  { p with buffer := [], downloaded := false, verified := false, saved := false }

/-- A fresh piece (`__init__` calls `recycle`). -/
def Piece.mk0 (h : Bytes) (sz : Nat) : Piece := ⟨h, sz, [], false, false, false⟩

/-- `Piece.download(offset, data)`: the slice assignment
`buffer[offset:offset+len(data)] = data` (Python clamps the slice ends to
the current buffer length, so a write past the end appends), then sets
`downloaded` when the buffer reaches `piece_size`. -/
def Piece.download (p : Piece) (offset : Nat) (data : Bytes) : Piece :=
  let lo := min offset p.buffer.length
  let hi := min (offset + data.length) p.buffer.length
  let buf := p.buffer.take lo ++ data ++ p.buffer.drop hi
  if buf.length = p.piece_size then { p with buffer := buf, downloaded := true }
  else { p with buffer := buf }

/-- `Piece.verify`: compares `hashlib.sha1(buffer).digest()` — abstracted as
the explicit parameter `sha1` — with `piece_hash`; on a match sets
`verified` and returns `True`, otherwise returns `False` leaving the piece
untouched (no reset happens here). -/
def Piece.verify (sha1 : Bytes → Bytes) (p : Piece) : Bool × Piece :=
  if sha1 p.buffer = p.piece_hash then (true, { p with verified := true })
  else (false, p)

/-- A swarm entry as used by the scheduler: only the `piecefield` matters
(`p.piecefield[i] > 0`); bit `i` of the `pizza_utils` bitfield is modelled
as entry `i` of a list, 0 when out of range. -/
structure RPeer where
  piecefield : List Nat
deriving DecidableEq, Repr

/-- `p.piecefield[i] > 0`. -/
def pfHas (pf : List Nat) (i : Nat) : Bool := 0 < pf.getD i 0

/-- `calculate_rarity(peer_list, piece_count)` builds a dict mapping each
rarity count to the (ascending) list of piece indexes with that count;
Python dicts preserve insertion order, modelled as an association list. -/
def addRarity (m : List (Nat × List Nat)) (r i : Nat) : List (Nat × List Nat) :=
  if (m.lookup r).isSome then
    m.map (fun kv => if kv.1 = r then (kv.1, kv.2 ++ [i]) else kv)
  else m ++ [(r, [i])]

/-- Number of swarm peers whose piecefield has piece `i` set (the inner
loop of `calculate_rarity`). -/
def pieceRarity (swarm : List RPeer) (i : Nat) : Nat :=
  (swarm.filter (fun p => pfHas p.piecefield i)).length

/-- `calculate_rarity` from `src/src/bridge/data.py`. -/
def calculate_rarity (swarm : List RPeer) (piece_count : Nat) : List (Nat × List Nat) :=
  (List.range piece_count).foldl (fun m i => addRarity m (pieceRarity swarm i) i) []

/-- Insertion into a descending-sorted list, for
`sorted(rp.keys(), reverse=True)` (dict keys are distinct, so any sort
produces the same list). -/
def insertDesc (a : Nat) : List Nat → List Nat
  | [] => [a]
  | b :: l => if a ≤ b then b :: insertDesc a l else a :: b :: l

/-- `sorted(keys, reverse=True)`. -/
def sortDesc (l : List Nat) : List Nat := l.foldr insertDesc []

/-- The dummy value for out-of-range `pieces[i]` reads in specifications
(the theorems below always keep indexes in range). -/
def dummyPiece : Piece := Piece.mk0 [] 0

/-- Torrent state: the attributes of `Torrent.__init__` used by the
scheduler.  `file_indexes` holds the result of `_calculate_file_indexes`
(see `calculate_file_indexes`: it is always `none`). -/
structure TorrentSt where
  swarm : List RPeer
  downloading : List Nat
  pieces : List Piece
  total_downloaded : Nat
  file_indexes : Option (List (Nat × TorrentFile))
deriving DecidableEq, Repr

/-- `Torrent.ask_for_block(remote_peer)`: first re-requests the next offset
of a piece already in `downloading` that the remote has; otherwise walks
`sorted(calculate_rarity(...).keys(), reverse=True)` — i.e. most-common
count first — and inside each bucket (ascending indexes) picks the first
piece the remote has that is not downloading and not verified.  Falls off
the end returning Python `None`. -/
def ask_for_block (t : TorrentSt) (remote : RPeer) : Option PeerMsg :=
  match t.downloading.find? (fun i => pfHas remote.piecefield i) with
  | some i => some (.request i (t.pieces.getD i dummyPiece).buffer.length BLOCK_REQUEST_SIZE)
  | none =>
    let rp := calculate_rarity t.swarm t.pieces.length
    (sortDesc (rp.map Prod.fst)).findSome? (fun r =>
      ((rp.lookup r).getD []).findSome? (fun i =>
        if pfHas remote.piecefield i && !(t.downloading.contains i)
            && !(t.pieces.getD i dummyPiece).verified then
          some (.request i 0 BLOCK_REQUEST_SIZE)
        else none))

/-- `Torrent._calculate_file_indexes`: the Python method fills a local dict
`rv` but has no `return` statement, so it returns `None`; the computation
of `rv` is kept here (and discarded) for reference. -/
def calculate_file_indexes (files : List TorrentFile) (piece_length : Nat) :
    Option (List (Nat × TorrentFile)) :=
  let _rv := (files.foldl
    (fun (acc : List (Nat × TorrentFile) × Nat) f =>
      (acc.1 ++ [(acc.2, f)], acc.2 + (f.size + piece_length - 1) / piece_length))
    ([], 0)).1
  none

/-- `Torrent.get_piece_file(i)`: iterates `reversed(self.file_indexes)`.
`file_indexes` is `None` (see `calculate_file_indexes`), so `reversed(None)`
raises `TypeError`; with an actual table it would return the last entry
whose index is below `i`, and `None` (unpacked by the caller: `TypeError`)
when there is none. -/
def get_piece_file (fi : Option (List (Nat × TorrentFile))) (i : Nat) :
    Except PyErr (Nat × TorrentFile) :=
  match fi with
  | none => .error .typeError
  | some l =>
    match l.reverse.find? (fun kv => decide (kv.1 < i)) with
    | some kv => .ok kv
    | none => .error .typeError

/-- `Torrent.recieve_block(piece_index, offset, data)`: looks up the piece
(`IndexError` past the end), unconditionally appends `piece_index` to
`downloading`, bumps `total_downloaded`, writes the block, and if the piece
became FULL verifies it.  On verification success it resolves the file
region — which raises `TypeError` because `file_indexes` is `None` — so the
`p.save(...)` call (itself a coroutine that is never awaited), the
`except OSError` recycle and the `finally` removal are reached only in the
hypothetical `some` case, where `save` still does not run and
`"...".format_map(piece_index)` raises `TypeError` inside the `try`.  On
verification failure the piece is recycled and the call returns normally.
The returned pair is (raised exception if any, state after mutations). -/
def recieve_block (sha1 : Bytes → Bytes) (t : TorrentSt) (piece_index offset : Nat)
    (data : Bytes) : Except PyErr Unit × TorrentSt :=
  match t.pieces[piece_index]? with
  | none => (.error .indexError, t)
  | some p =>
    let t1 := { t with downloading := t.downloading ++ [piece_index],
                       total_downloaded := t.total_downloaded + data.length }
    let p1 := p.download offset data
    let t2 := { t1 with pieces := t1.pieces.set piece_index p1 }
    if p1.downloaded then
      match Piece.verify sha1 p1 with
      | (true, p2) =>
        let t3 := { t2 with pieces := t2.pieces.set piece_index p2 }
        match get_piece_file t3.file_indexes piece_index with
        | .error e => (.error e, t3)
        | .ok _ =>
          (.error .typeError,
           { t3 with downloading := t3.downloading.erase piece_index })
      | (false, _) =>
        (.ok (), { t2 with pieces := t2.pieces.set piece_index p1.recycle })
    else (.ok (), t2)

/-! ## Metainfo loading (`TorrentMeta` in `src/src/bridge/data.py`) -/

/-- Membership test for a byte-string key in a decoded dictionary
(`b"…" in self._meta`). -/
def pyContains (d : PyVal) (k : Bytes) : Bool :=
  match d with
  | .pydict kvs => kvs.any (fun kv =>
      match kv.1 with
      | .pybytes b => b = k
      | _ => false)
  | _ => false

/-- Dictionary lookup `d[b"…"]` (`KeyError` when absent, `TypeError` when
not a dict). -/
def pyGet (d : PyVal) (k : Bytes) : Except PyErr PyVal :=
  match d with
  | .pydict kvs =>
    match kvs.find? (fun kv =>
        match kv.1 with
        | .pybytes b => b = k
        | _ => false) with
    | some kv => .ok kv.2
    | none => .error .keyError
  | _ => .error .typeError

/-- Fuel-based worker for `chunkBytes` (`fuel ≥ bs.length` suffices: each
step drops at least one byte). -/
def chunkBytesF : Nat → Bytes → Nat → List Bytes
  | 0, _, _ => []
  | fuel + 1, bs, k =>
    if bs.isEmpty || k = 0 then []
    else bs.take k :: chunkBytesF fuel (bs.drop k) k

/-- `pizza_utils.listutils.chunk(bs, k)`: consecutive chunks of `k` bytes,
last chunk possibly short (external helper, modelled by its contract). -/
def chunkBytes (bs : Bytes) (k : Nat) : List Bytes := chunkBytesF bs.length bs k

/-- ASCII bytes of the announce URL in the tests. -/
def pyBytesOf (v : PyVal) : Except PyErr Bytes :=
  match v with
  | .pybytes b => .ok b
  | _ => .error .attributeError

/-- The state assembled by `TorrentMeta.__init__`: announce tiers and piece
hashes; `files` is an `Option` because, `_init_files` never being called,
the attribute is never created. -/
structure MetaSt where
  announce : List (List Bytes)
  pieces : List Bytes
  files : Option (List TorrentFile)
deriving DecidableEq, Repr

/-- `TorrentMeta._init_announce_urls`: uses `announce-list` verbatim if
present, else wraps the single `announce` URL, else raises
`InvalidTorrentError`.  `url.decode()` is modelled as the identity on the
underlying bytes (`AttributeError` for non-bytes entries). -/
def init_announce_urls (meta : PyVal) : Except PyErr (List (List Bytes)) :=
  if pyContains meta [97, 110, 110, 111, 117, 110, 99, 101, 45, 108, 105, 115, 116] then do
    match (← pyGet meta [97, 110, 110, 111, 117, 110, 99, 101, 45, 108, 105, 115, 116]) with
    | .pylist tiers =>
      tiers.mapM (fun tier =>
        match tier with
        | .pylist urls => urls.mapM pyBytesOf
        | _ => .error .typeError)
    | _ => .error .typeError
  else if pyContains meta [97, 110, 110, 111, 117, 110, 99, 101] then do
    let u ← pyGet meta [97, 110, 110, 111, 117, 110, 99, 101]
    let b ← pyBytesOf u
    .ok [[b]]
  else .error .invalidTorrent

/-- `TorrentMeta._init_pieces`: `chunk(info[b"pieces"], 20)` when the key
exists — with no check that the length is a multiple of 20 — else raises
`InvalidTorrentError("File does not contain pieces.")`. -/
def init_pieces (meta : PyVal) : Except PyErr (List Bytes) := do
  let info ← pyGet meta [105, 110, 102, 111]
  if pyContains info [112, 105, 101, 99, 101, 115] then do
    let raw ← pyBytesOf (← pyGet info [112, 105, 101, 99, 101, 115])
    .ok (chunkBytes raw 20)
  else .error .invalidTorrent

/-- `TorrentMeta._init_files` — defined in the source but never invoked
(see `torrent_meta_init`).  The multi-file branch indexes each item with
the `str` key `"path"` although decoded dictionaries have `bytes` keys, so
it raises `KeyError`; the single-file branch needs `name` and `length`;
otherwise `InvalidTorrentError("File does not contain files.")`. -/
def init_files (meta : PyVal) : Except PyErr (List TorrentFile) := do
  let info ← pyGet meta [105, 110, 102, 111]
  if pyContains info [102, 105, 108, 101, 115] then
    .error .keyError
  else if pyContains info [110, 97, 109, 101] && pyContains info [108, 101, 110, 103, 116, 104] then do
    let name ← pyBytesOf (← pyGet info [110, 97, 109, 101])
    let len ← pyGet info [108, 101, 110, 103, 116, 104]
    match len with
    | .pyint n => .ok [⟨[], name, n.toNat, 0⟩]
    | _ => .error .typeError
  else .error .invalidTorrent

/-- `TorrentMeta.__init__` on an already-decoded metainfo value: it calls
`_init_announce_urls()`, then `_init_pieces()` — and then `_init_pieces()`
a second time; `_init_files()` is never called, so no `files` attribute is
ever created (`files := none`). -/
def torrent_meta_init (meta : PyVal) : Except PyErr MetaSt := do
  let announce ← init_announce_urls meta
  let _pieces ← init_pieces meta
  let pieces ← init_pieces meta
  .ok { announce := announce, pieces := pieces, files := none }

/-! ## Specification-side definitions and concrete fixtures -/

/-- The candidate order of the rarity walk in `ask_for_block`: the buckets
of `calculate_rarity`, visited in the order of
`sorted(rp.keys(), reverse=True)`. -/
def rarityWalk (swarm : List RPeer) (n : Nat) : List Nat :=
  (sortDesc ((calculate_rarity swarm n).map Prod.fst)).flatMap
    (fun r => ((calculate_rarity swarm n).lookup r).getD [])

/-- The fragment of the bencoded value grammar on which the codec
round-trips: non-negative integers and non-empty lists and dictionaries
thereof, with hashable pairwise-distinct dictionary keys.  (Byte strings
are excluded because `encode` has no `bytes` branch; Python strings because
`decode` returns `bytes`, never `str`; negative integers because
`extract_int` has no sign handling; empty containers because the decode
loops choke on an immediate `e`; list- or dict-valued keys because the
dictionary assignment raises `TypeError` on unhashable keys; duplicate keys
because the assignment overwrites, so the decoded dictionary re-encodes
differently.) -/
inductive Good : PyVal → Prop where
  | int (n : Nat) : Good (.pyint n)
  | list (xs : List PyVal) (hne : xs ≠ []) (h : ∀ v ∈ xs, Good v) : Good (.pylist xs)
  | dict (kvs : List (PyVal × PyVal)) (hne : kvs ≠ [])
      (hk : ∀ kv ∈ kvs, Good kv.1) (hv : ∀ kv ∈ kvs, Good kv.2)
      (hhash : ∀ kv ∈ kvs, pyHashable kv.1 = true)
      (hnodup : (kvs.map Prod.fst).Pairwise (fun a b => pyKeyEq a b = false)) :
      Good (.pydict kvs)

/-- Decoding inverts encoding for `v`, uniformly in the trailing input and
in any sufficient fuel. -/
def DecencOK (v : PyVal) : Prop :=
  ∀ bs, encode v = some bs → ∀ (rest : Bytes) (f : Nat),
    2 * (bs.length + rest.length) + 2 ≤ f →
    decodeF f (bs ++ rest) = .ok (some v, some rest)

/-- The 20-byte info-hash `0x00..0x13` of spec scenario §8.1. -/
def exInfoHash : Bytes := List.range 20

/-- ASCII bytes of the peer id of spec scenario §8.1. -/
def exPeerId : Bytes :=
  [84, 101, 115, 116, 32, 80, 101, 101, 114, 32, 73, 68] ++ List.replicate 8 97

/-- The three piecefields of spec scenario §8.6 (entry `i` = piece `i`). -/
def exSwarm : List RPeer := [⟨[1, 1, 0, 0]⟩, ⟨[1, 0, 1, 0]⟩, ⟨[0, 0, 1, 1]⟩]

/-- Four fresh 16-byte pieces. -/
def exPieces4 : List Piece := List.replicate 4 (Piece.mk0 [9] 16)

/-- The torrent of spec scenario §8.6: swarm as above, nothing downloading,
`file_indexes` as computed by `Torrent.__init__`. -/
def exTorrent6 : TorrentSt := ⟨exSwarm, [], exPieces4, 0, calculate_file_indexes [] 16⟩

/-- A remote peer offering every piece. -/
def exAllPeer : RPeer := ⟨[1, 1, 1, 1]⟩

/-- A stand-in for the external SHA-1 whose digest is always `[0]`. -/
def sha1Const0 : Bytes → Bytes := fun _ => [0]

/-- A stand-in for the external SHA-1 whose digest is always `[9]`. -/
def sha1Const9 : Bytes → Bytes := fun _ => [9]

/-- A one-piece torrent whose piece needs 3 bytes (so single-byte blocks
never complete it). -/
def exTorrent1 : TorrentSt := ⟨[], [], [Piece.mk0 [9] 3], 0, none⟩

/-- A one-piece torrent whose 1-byte piece has expected hash `[9]`, with
`file_indexes` as computed by `Torrent.__init__`. -/
def exTorrent7 : TorrentSt :=
  ⟨[], [], [Piece.mk0 [9] 1], 0, calculate_file_indexes [⟨[], [], 8, 0⟩] 16⟩

/-- A FULL piece (buffer complete) whose hash will not match `sha1Const0`. -/
def exPieceFull : Piece := ⟨[9], 2, [1, 2], true, false, false⟩

/-- ASCII bytes of a tracker URL. -/
def exUrl : Bytes := [104, 116, 116, 112, 58, 47, 47, 116]

/-- A decoded metainfo dictionary with an `announce`, an `info.pieces` of
21 bytes (not a multiple of 20) and an `info.piece length`, but neither
`info.files` nor `info.name`/`info.length`. -/
def exMetaNoFiles : PyVal :=
  .pydict [(.pybytes [97, 110, 110, 111, 117, 110, 99, 101], .pybytes exUrl),
           (.pybytes [105, 110, 102, 111], .pydict
             [(.pybytes [112, 105, 101, 99, 101, 115], .pybytes (List.replicate 21 7)),
              (.pybytes [112, 105, 101, 99, 101, 32, 108, 101, 110, 103, 116, 104], .pyint 1)])]

/-! # Theorems -/

/-- C10: the bencoding decoder applied to an empty input returns the pair
(None, None) rather than raising a Malformed error, so at the public
interface an empty byte string is indistinguishable from an absent value
instead of being rejected as malformed. -/
theorem C10_empty_decode : decode [] = .ok (none, none) := rfl

/-- C4 (code evaluated at the failing input): the eleven §8 fixtures encode
bit-exactly through the `PeerMessage` classes of `src/src/bridge/peer.py`
and decode back through the frame iterator — but `encode_peer_message` of
`src/bridge/protocol.py`, the cited symbol, raises `TypeError` on
`PORT(128)` (and on `CANCEL(9,10,11)`): the branch guard
`m is PeerMessage.piece or PeerMessage.cancel` is always truthy, so the
`port` branch is unreachable. -/
theorem C4_wire_fixtures :
    (PeerMsg.encode .keepAlive = [0, 0, 0, 0] ∧
     PeerMsg.encode .choke = [0, 0, 0, 1, 0] ∧
     PeerMsg.encode .unchoke = [0, 0, 0, 1, 1] ∧
     PeerMsg.encode .interested = [0, 0, 0, 1, 2] ∧
     PeerMsg.encode .notInterested = [0, 0, 0, 1, 3] ∧
     PeerMsg.encode (.haveMsg 4) = [0, 0, 0, 5, 4, 0, 0, 0, 4] ∧
     PeerMsg.encode (.bitfield [1, 2, 3]) = [0, 0, 0, 4, 5, 1, 2, 3] ∧
     PeerMsg.encode (.request 4 5 6) =
       [0, 0, 0, 13, 6, 0, 0, 0, 4, 0, 0, 0, 5, 0, 0, 0, 6] ∧
     PeerMsg.encode (.blockMsg 7 8 [97, 98, 99]) =
       [0, 0, 0, 12, 7, 0, 0, 0, 7, 0, 0, 0, 8, 97, 98, 99] ∧
     PeerMsg.encode (.cancel 9 10 11) =
       [0, 0, 0, 13, 8, 0, 0, 0, 9, 0, 0, 0, 10, 0, 0, 0, 11] ∧
     PeerMsg.encode (.port 128) = [0, 0, 0, 3, 9, 0, 128]) ∧
    (∀ m : PeerMsg, m ∈ [PeerMsg.keepAlive, .choke, .unchoke, .interested,
        .notInterested, .haveMsg 4, .bitfield [1, 2, 3], .request 4 5 6,
        .blockMsg 7 8 [97, 98, 99], .cancel 9 10 11, .port 128] →
      iterRun 2 ⟨m.encode, none⟩ = ([m], none)) ∧
    encode_peer_message .portId (.pint 128) = .error .typeError ∧
    encode_peer_message .cancelId (.ptup [.pint 9, .pint 10, .pint 11]) = .error .typeError := by
  refine ⟨by decide, ?_, rfl, rfl⟩
  intro m hm
  fin_cases hm <;> decide

/-- C8 (code evaluated at the failing input): served by a reader that
returns at most 5 bytes per call, the frame iterator of
`src/src/bridge/peer.py` does not buffer across the partial read — the
single `read(length)` for a REQUEST frame returns 5 of the 13 bytes and the
payload decoder raises `struct.error` — whereas the same frame decodes fine
when the reader returns full reads. -/
theorem C8_iterator_no_buffering :
    iterRun 4 ⟨PeerMsg.encode (.request 4 5 6), some 5⟩ = ([], some .structError) ∧
    iterRun 4 ⟨PeerMsg.encode (.request 4 5 6), none⟩ = ([.request 4 5 6], none) := by
  decide

/-- C7 (code evaluated at the failing input): delivering the single correct
block of a 1-byte piece verifies it, and then `recieve_block` raises
`TypeError` while resolving the file region (`file_indexes` is `None`
because `_calculate_file_indexes` never returns its table): no disk write is
attempted — `p.save` is a coroutine that is never awaited — so no `IoError`
retry path exists; the piece is left verified and unsaved with its index
still held in `downloading`. -/
theorem C7_save_path_crashes :
    recieve_block sha1Const9 exTorrent7 0 0 [5] =
      (.error .typeError, ⟨[], [0], [⟨[9], 1, [5], true, true, false⟩], 1, none⟩) := rfl

/-- C9 (code evaluated at the failing input): loading a metainfo with an
announce and a 21-byte `info.pieces` but no file fields succeeds — no
`InvalidTorrent` is raised for the missing files (because
`TorrentMeta.__init__` calls `_init_pieces` twice and never `_init_files`)
nor for the pieces length not being a multiple of 20 (no such check
exists); the dead `_init_files` contains exactly the claimed check and
raises `InvalidTorrentError` on this input. -/
theorem C9_meta_missing_files_accepted :
    torrent_meta_init exMetaNoFiles =
      .ok ⟨[[exUrl]], [List.replicate 20 7, [7]], none⟩ ∧
    init_files exMetaNoFiles = .error .invalidTorrent := ⟨rfl, rfl⟩

/-- C1 (counterexample): starting from a torrent with one 3-byte piece and
an empty claim set, two 1-byte block receipts for piece 0 leave index 0 in
`downloading` twice — `recieve_block` appends on every delivered block, so
the at-most-one-holder invariant is not preserved. -/
theorem C1_cex :
    (recieve_block sha1Const0
        (recieve_block sha1Const0 exTorrent1 0 0 [7]).2 0 1 [8]).2.downloading = [0, 0] ∧
    (recieve_block sha1Const0
        (recieve_block sha1Const0 exTorrent1 0 0 [7]).2 0 1 [8]).2.downloading.count 0 = 2 := by
  decide

/-- C2 (counterexample): on a FULL piece whose hash does not match,
`Piece.verify` returns `false` and leaves the piece untouched — the buffer
is not reset and the piece does not go back to EMPTY (`downloaded` stays
set). -/
theorem C2_cex :
    Piece.verify sha1Const0 exPieceFull = (false, exPieceFull) ∧
    exPieceFull.buffer = [1, 2] ∧ exPieceFull.downloaded = true := by
  decide

/-- C6 (counterexample): in spec scenario §8.6 (piecefields 1100, 1010,
0011 over 4 pieces) piece 0 has rarity 2 and piece 1 has rarity 1, yet the
walk of `ask_for_block` offers piece 0 first: the buckets are visited in
descending count order (`sorted(..., reverse=True)`), not ascending. -/
theorem C6_cex :
    ask_for_block exTorrent6 exAllPeer = some (.request 0 0 BLOCK_REQUEST_SIZE) ∧
    pieceRarity exSwarm 0 = 2 ∧ pieceRarity exSwarm 1 = 1 := by
  decide

/-- C3 (counterexample): the well-formed bencoded input `1:a` decodes to
the byte string `a`, but `encode` applied to that decoded value returns
Python `None` (it has no `bytes` branch), not the original input — so
neither `encode(decode(x)) == x` nor `decode(encode(v)) == v` holds for
byte strings.  Dictionaries break too: `dli1eei2ee` (a list-valued key)
raises `TypeError` at the dictionary assignment instead of decoding, and
`di1ei2ei1ei3ee` (a duplicate key) decodes to the overwritten dictionary
whose re-encoding `di1ei3ee` differs from the input. -/
theorem C3_cex :
    (decode [49, 58, 97] = .ok (some (.pybytes [97]), some []) ∧
     encode (.pybytes [97]) = none) ∧
    decode [100, 108, 105, 49, 101, 101, 105, 50, 101, 101] = .error .typeError ∧
    decode [100, 105, 49, 101, 105, 50, 101, 105, 49, 101, 105, 51, 101, 101]
      = .ok (some (.pydict [(.pyint 1, .pyint 3)]), some []) := by
  exact ⟨⟨rfl, rfl⟩, rfl, rfl⟩

/-- Writing a block never changes a piece's hash or size. -/
theorem piece_download_hash (p : Piece) (offset : Nat) (data : Bytes) :
    (Piece.download p offset data).piece_hash = p.piece_hash ∧
    (Piece.download p offset data).piece_size = p.piece_size := by
  simp only [Piece.download]
  split <;> exact ⟨rfl, rfl⟩

/-- C1 (amended): the claiming side never writes — `ask_for_block` is a
pure query on the torrent state — while `recieve_block` appends one
occurrence of the delivered piece-index to `downloading` on every call and
never removes one (the removal in its save path is unreachable because the
region resolver raises first): with `file_indexes` as the constructor
leaves it (`none`), the claim set after a receipt is always the old set
plus one more occurrence of the index, so a piece delivered in several
blocks is held several times rather than at most once. -/
theorem C1_theorem :
    ∀ (sha1 : Bytes → Bytes) (t : TorrentSt) (i offset : Nat) (data : Bytes),
      i < t.pieces.length → t.file_indexes = none →
      (recieve_block sha1 t i offset data).2.downloading = t.downloading ++ [i] ∧
      (recieve_block sha1 t i offset data).2.downloading.count i
        = t.downloading.count i + 1 := by
  intro sha1 t i offset data hi hfi
  have hp : t.pieces[i]? = some t.pieces[i] := List.getElem?_eq_getElem hi
  have hmain : (recieve_block sha1 t i offset data).2.downloading = t.downloading ++ [i] := by
    simp only [recieve_block, hp]
    split
    · split
      · simp [get_piece_file, hfi]
      · rfl
    · rfl
  refine ⟨hmain, ?_⟩
  rw [hmain]
  simp [List.count_append]

/-- C1 (witness): the amended statement evaluated on the concrete one-piece
torrent. -/
theorem C1_witness :
    (recieve_block sha1Const0 exTorrent1 0 0 [7]).2.downloading
        = exTorrent1.downloading ++ [0] ∧
    (recieve_block sha1Const0 exTorrent1 0 0 [7]).2.downloading.count 0
        = exTorrent1.downloading.count 0 + 1 :=
  C1_theorem sha1Const0 exTorrent1 0 0 [7] (by decide) rfl

/-- C2 (amended): `Piece.verify` on a FULL piece returns `true` and marks
the piece VERIFIED when the hash matches, and on a mismatch returns `false`
leaving the piece (buffer and flags) unchanged; the reset to EMPTY happens
in the caller — `Torrent.recieve_block` recycles the piece (clearing the
buffer and all flags) when a just-completed piece fails verification. -/
theorem C2_theorem :
    (∀ (sha1 : Bytes → Bytes) (p : Piece), sha1 p.buffer = p.piece_hash →
        Piece.verify sha1 p = (true, { p with verified := true })) ∧
    (∀ (sha1 : Bytes → Bytes) (p : Piece), sha1 p.buffer ≠ p.piece_hash →
        Piece.verify sha1 p = (false, p)) ∧
    (∀ (sha1 : Bytes → Bytes) (t : TorrentSt) (i offset : Nat) (data : Bytes) (p : Piece),
        t.pieces[i]? = some p →
        (p.download offset data).downloaded = true →
        sha1 (p.download offset data).buffer ≠ p.piece_hash →
        recieve_block sha1 t i offset data =
          (.ok (), { t with downloading := t.downloading ++ [i],
                            total_downloaded := t.total_downloaded + data.length,
                            pieces := t.pieces.set i (p.download offset data).recycle })) := by
  refine ⟨?_, ?_, ?_⟩
  · intro sha1 p h
    simp [Piece.verify, h]
  · intro sha1 p h
    simp [Piece.verify, h]
  · intro sha1 t i offset data p hp hd hm
    have hhash := (piece_download_hash p offset data).1
    have hv : Piece.verify sha1 (p.download offset data) = (false, p.download offset data) := by
      simp [Piece.verify, hhash, hm]
    simp only [recieve_block, hp, hd, if_true, hv]
    simp [List.set_set]

/-- C2 (witness): the caller-side reset evaluated on the concrete one-piece
torrent: a completing block with a mismatching hash leaves the piece
recycled (EMPTY, empty buffer). -/
theorem C2_witness :
    recieve_block sha1Const0 exTorrent7 0 0 [5] =
      (.ok (), (⟨[], [0], [Piece.mk0 [9] 1], 1, none⟩ : TorrentSt)) := by
  have h := C2_theorem.2.2 sha1Const0 exTorrent7 0 0 [5] (Piece.mk0 [9] 1) rfl (by decide)
    (by decide)
  rw [h]
  rfl

/-- C5 (theorem, amended): for the `HandshakeMessage` of
`src/src/bridge/peer.py`, encoding a handshake built from any 20-byte
info-hash and 20-byte peer id with the default protocol string yields 68
bytes, and decoding the encoding recovers every field. -/
theorem C5_theorem :
    ∀ ih pid : Bytes, ih.length = 20 → pid.length = 20 →
      (Handshake.encode (mkHandshake ih pid)).length = 68 ∧
      HandshakeMessage.decode (Handshake.encode (mkHandshake ih pid))
        = .ok (mkHandshake ih pid) := by
  intro ih pid hih hpid
  have hps : PROTOCOL_STRING.length = 19 := rfl
  have he : Handshake.encode (mkHandshake ih pid)
      = 19 :: (PROTOCOL_STRING ++ (List.replicate 8 0 ++ (ih ++ pid))) := by
    simp [Handshake.encode, mkHandshake, List.append_assoc, hps]
  constructor
  · rw [he]
    have h1 : (ih ++ pid).length = 40 := by
      rw [List.length_append, hih, hpid]
    have h2 : (List.replicate 8 0 ++ (ih ++ pid)).length = 48 := by
      rw [List.length_append, List.length_replicate, h1]
    have h3 : (PROTOCOL_STRING ++ (List.replicate 8 0 ++ (ih ++ pid))).length = 67 := by
      rw [List.length_append, h2, hps]
    rw [List.length_cons, h3]
  · rw [he]
    have hgrp1 : PROTOCOL_STRING ++ (List.replicate 8 0 ++ (ih ++ pid))
        = (PROTOCOL_STRING ++ List.replicate 8 0) ++ (ih ++ pid) := by
      simp
    have hgrp2 : PROTOCOL_STRING ++ (List.replicate 8 0 ++ (ih ++ pid))
        = ((PROTOCOL_STRING ++ List.replicate 8 0) ++ ih) ++ pid := by
      simp
    have hL19 : (PROTOCOL_STRING ++ (List.replicate 8 0 ++ (ih ++ pid))).drop 19
        = List.replicate 8 0 ++ (ih ++ pid) := List.drop_left' hps
    have hL27 : (PROTOCOL_STRING ++ (List.replicate 8 0 ++ (ih ++ pid))).drop 27
        = ih ++ pid := by
      rw [hgrp1]
      exact List.drop_left' (by simp [hps])
    have hL47 : (PROTOCOL_STRING ++ (List.replicate 8 0 ++ (ih ++ pid))).drop 47
        = pid := by
      rw [hgrp2]
      exact List.drop_left' (by simp [hps, hih])
    have htake19 : (PROTOCOL_STRING ++ (List.replicate 8 0 ++ (ih ++ pid))).take 19
        = PROTOCOL_STRING := List.take_left' hps
    have htake8 : (List.replicate 8 0 ++ (ih ++ pid)).take 8 = List.replicate 8 0 :=
      List.take_left' (by simp)
    have htake20 : (ih ++ pid).take 20 = ih := List.take_left' hih
    have hstep : HandshakeMessage.decode
        (19 :: (PROTOCOL_STRING ++ (List.replicate 8 0 ++ (ih ++ pid))))
        = .ok { info_hash :=
                  ((PROTOCOL_STRING ++ (List.replicate 8 0 ++ (ih ++ pid))).drop 27).take 20,
                peer_id := (PROTOCOL_STRING ++ (List.replicate 8 0 ++ (ih ++ pid))).drop 47,
                protocol_string :=
                  (PROTOCOL_STRING ++ (List.replicate 8 0 ++ (ih ++ pid))).take 19,
                reserved :=
                  ((PROTOCOL_STRING ++ (List.replicate 8 0 ++ (ih ++ pid))).drop 19).take 8 } :=
      rfl
    rw [hstep, hL27, htake20, hL47, htake19, hL19, htake8]
    rfl

/-- C5 (witness): the amended theorem at the concrete inputs of spec
scenario §8.1. -/
theorem C5_witness :
    (Handshake.encode (mkHandshake exInfoHash exPeerId)).length = 68 ∧
    HandshakeMessage.decode (Handshake.encode (mkHandshake exInfoHash exPeerId))
      = .ok (mkHandshake exInfoHash exPeerId) :=
  C5_theorem exInfoHash exPeerId (by decide) (by decide)

/-- C5 (counterexample): the `HandshakeMessage` of `src/bridge/peer.py`
scrambles the fields on decode — for the §8.1 inputs the decoded
`info_hash` is the protocol string, not the original info-hash — because
`decode` passes the parsed fields positionally in the wrong order. -/
theorem C5_cex :
    HandshakeMessage.decodeOldLayout (Handshake.encode (mkHandshake exInfoHash exPeerId))
      = .ok ⟨PROTOCOL_STRING, List.replicate 8 0, exInfoHash, exPeerId⟩ ∧
    PROTOCOL_STRING ≠ exInfoHash :=
  ⟨rfl, by decide⟩

/-! ## The rarity walk of ask_for_block (towards C6) -/

/-- Looking up in the bucket map after modifying the bucket of `r'`. -/
theorem lookup_map_modify (m : List (Nat × List Nat)) (r r' : Nat) (i : Nat) :
    (m.map (fun kv => if kv.1 = r' then (kv.1, kv.2 ++ [i]) else kv)).lookup r
      = (m.lookup r).map (fun v => if r = r' then v ++ [i] else v) := by
  induction m with
  | nil => rfl
  | cons kv tl ih =>
    obtain ⟨k, v⟩ := kv
    rw [List.map_cons]
    have hhead : (if (k, v).1 = r' then ((k, v).1, (k, v).2 ++ [i]) else (k, v))
        = (k, if k = r' then v ++ [i] else v) := by
      by_cases hk : k = r' <;> simp [hk]
    rw [hhead]
    by_cases hr : r = k
    · subst hr
      rw [List.lookup_cons_self, List.lookup_cons_self]
      rfl
    · have hbe : (r == k) = false := by
        simp [hr]
      simp only [List.lookup_cons, hbe]
      exact ih

/-- Effect of `addRarity` on lookups. -/
theorem lookup_addRarity (m : List (Nat × List Nat)) (r r' i : Nat) :
    (addRarity m r' i).lookup r =
      if r = r' then some ((m.lookup r').getD [] ++ [i]) else m.lookup r := by
  unfold addRarity
  by_cases hs : (m.lookup r').isSome
  · rw [if_pos hs, lookup_map_modify]
    by_cases hr : r = r'
    · subst hr
      obtain ⟨l, hl⟩ := Option.isSome_iff_exists.mp hs
      simp [hl]
    · simp [hr]
  · have hnone : m.lookup r' = none := Option.not_isSome_iff_eq_none.mp hs
    rw [if_neg hs, List.lookup_append]
    by_cases hr : r = r'
    · subst hr
      simp [hnone, List.lookup_cons]
    · have hbe : (r == r') = false := by
        simp [hr]
      simp only [List.lookup_cons, hbe, List.lookup_nil, hr, if_false, Option.or_none]

/-- Effect of `addRarity` on the key list. -/
theorem keys_addRarity (m : List (Nat × List Nat)) (r' i : Nat) :
    (addRarity m r' i).map Prod.fst =
      if (m.lookup r').isSome then m.map Prod.fst else m.map Prod.fst ++ [r'] := by
  unfold addRarity
  by_cases hs : (m.lookup r').isSome
  · rw [if_pos hs, if_pos hs, List.map_map]
    congr 1
    funext kv
    by_cases h : kv.1 = r' <;> simp [h]
  · rw [if_neg hs, if_neg hs, List.map_append]
    rfl

/-- Peeling the last index off `calculate_rarity`. -/
theorem calculate_rarity_succ (swarm : List RPeer) (n : Nat) :
    calculate_rarity swarm (n + 1)
      = addRarity (calculate_rarity swarm n) (pieceRarity swarm n) n := by
  unfold calculate_rarity
  rw [List.range_succ, List.foldl_append]
  rfl

/-- The bucket of rarity `r` is exactly the ascending list of piece indexes
below `n` whose rarity is `r` (`none` when that list is empty). -/
theorem calculate_rarity_lookup (swarm : List RPeer) (n r : Nat) :
    (calculate_rarity swarm n).lookup r =
      (if ((List.range n).filter (fun i => pieceRarity swarm i == r)).isEmpty then none
       else some ((List.range n).filter (fun i => pieceRarity swarm i == r))) := by
  induction n with
  | zero => rfl
  | succ n ih =>
    rw [calculate_rarity_succ, lookup_addRarity, List.range_succ, List.filter_append]
    by_cases hr : r = pieceRarity swarm n
    · rw [if_pos hr]
      have hfn : ([n].filter (fun i => pieceRarity swarm i == r)) = [n] := by
        simp [hr]
      rw [hfn]
      have hgetd : ((calculate_rarity swarm n).lookup (pieceRarity swarm n)).getD []
          = (List.range n).filter (fun i => pieceRarity swarm i == r) := by
        rw [← hr, ih]
        split
        · rename_i hEmp
          rw [List.isEmpty_iff] at hEmp
          simp [hEmp]
        · rfl
      rw [hgetd]
      have : (((List.range n).filter (fun i => pieceRarity swarm i == r)) ++ [n]).isEmpty
          = false := by
        simp
      rw [this]
      simp
    · rw [if_neg hr, ih]
      have hfn : ([n].filter (fun i => pieceRarity swarm i == r)) = [] := by
        simp
        intro h
        exact hr h.symm
      rw [hfn, List.append_nil]

/-- The bucket contents, unconditionally. -/
theorem bucket_eq_filter (swarm : List RPeer) (n r : Nat) :
    ((calculate_rarity swarm n).lookup r).getD []
      = (List.range n).filter (fun i => pieceRarity swarm i == r) := by
  rw [calculate_rarity_lookup]
  split
  · rename_i hEmp
    rw [List.isEmpty_iff] at hEmp
    simp [hEmp]
  · rfl

/-- Key membership in an association list is non-`none` lookup. -/
theorem mem_keys_iff (m : List (Nat × List Nat)) (r : Nat) :
    r ∈ m.map Prod.fst ↔ m.lookup r ≠ none := by
  constructor
  · rintro hmem heq
    rw [List.lookup_eq_none_iff] at heq
    obtain ⟨p, hp, hfst⟩ := List.mem_map.mp hmem
    have := heq p hp
    rw [hfst] at this
    simp at this
  · intro h
    by_contra hmem
    apply h
    rw [List.lookup_eq_none_iff]
    intro p hp
    by_contra hbe
    simp only [bne_iff_ne, ne_eq, not_not] at hbe
    exact hmem (List.mem_map.mpr ⟨p, hp, hbe.symm⟩)

/-- The key list of `calculate_rarity` is duplicate-free. -/
theorem calculate_rarity_keys_nodup (swarm : List RPeer) (n : Nat) :
    ((calculate_rarity swarm n).map Prod.fst).Nodup := by
  induction n with
  | zero => exact List.nodup_nil
  | succ n ih =>
    rw [calculate_rarity_succ, keys_addRarity]
    by_cases hs : ((calculate_rarity swarm n).lookup (pieceRarity swarm n)).isSome
    · rw [if_pos hs]
      exact ih
    · rw [if_neg hs]
      have hnotmem : pieceRarity swarm n ∉ (calculate_rarity swarm n).map Prod.fst := by
        rw [mem_keys_iff]
        intro h
        exact h (Option.not_isSome_iff_eq_none.mp hs)
      rw [List.nodup_append]
      exact ⟨ih, List.nodup_singleton _, by simpa using hnotmem⟩

/-- `insertDesc` permutes a cons. -/
theorem insertDesc_perm (a : Nat) (l : List Nat) : (insertDesc a l).Perm (a :: l) := by
  induction l with
  | nil => exact List.Perm.refl _
  | cons b tl ih =>
    rw [insertDesc]
    by_cases hab : a ≤ b
    · rw [if_pos hab]
      exact (ih.cons b).trans (List.Perm.swap a b tl)
    · rw [if_neg hab]

/-- `sortDesc` permutes its input. -/
theorem sortDesc_perm (l : List Nat) : (sortDesc l).Perm l := by
  induction l with
  | nil => exact List.Perm.refl _
  | cons a tl ih =>
    exact (insertDesc_perm a (sortDesc tl)).trans (ih.cons a)

/-- `insertDesc` preserves descending sortedness. -/
theorem insertDesc_pairwise (a : Nat) (l : List Nat)
    (h : l.Pairwise (fun x y => y ≤ x)) :
    (insertDesc a l).Pairwise (fun x y => y ≤ x) := by
  induction l with
  | nil => simp [insertDesc]
  | cons b tl ih =>
    rw [insertDesc]
    rcases List.pairwise_cons.mp h with ⟨hb, htl⟩
    by_cases hab : a ≤ b
    · rw [if_pos hab]
      refine List.Pairwise.cons ?_ (ih htl)
      intro y hy
      rcases List.mem_cons.mp ((insertDesc_perm a tl).mem_iff.mp hy) with hya | hytl
      · subst hya
        exact hab
      · exact hb y hytl
    · rw [if_neg hab]
      have hba : b ≤ a := Nat.le_of_not_le hab
      refine List.Pairwise.cons ?_ h
      intro y hy
      rcases List.mem_cons.mp hy with hyb | hytl
      · subst hyb
        exact hba
      · exact Nat.le_trans (hb y hytl) hba

/-- `sortDesc` sorts descending. -/
theorem sortDesc_pairwise (l : List Nat) :
    (sortDesc l).Pairwise (fun x y => y ≤ x) := by
  induction l with
  | nil => exact List.Pairwise.nil
  | cons a tl ih => exact insertDesc_pairwise a (sortDesc tl) ih

/-- On duplicate-free input, `sortDesc` sorts strictly descending. -/
theorem sortDesc_strict (l : List Nat) (h : l.Nodup) :
    (sortDesc l).Pairwise (fun x y => y < x) := by
  have hnd : (sortDesc l).Nodup := ((sortDesc_perm l).nodup_iff).mpr h
  exact ((sortDesc_pairwise l).and hnd).imp
    (fun hp => Nat.lt_of_le_of_ne hp.1 (fun he => hp.2 he.symm))

/-- Nested `findSome?` over buckets equals `findSome?` over the flattened
walk. -/
theorem findSome?_flatMap {α β γ : Type} (L : List α) (g : α → List β) (h : β → Option γ) :
    (L.flatMap g).findSome? h = L.findSome? (fun a => (g a).findSome? h) := by
  induction L with
  | nil => rfl
  | cons a tl ih =>
    rw [List.flatMap_cons, List.findSome?_append, ih, List.findSome?_cons]
    cases hfa : (g a).findSome? h with
    | none => simp [Option.or]
    | some c => simp [Option.or]

/-- C6 (amended): the piece-selection walk of `ask_for_block` visits the
rarity buckets sorted DESCENDING by the number of swarm peers that have the
piece (most common first — `sorted(rp.keys(), reverse=True)`), with
deterministic tie-breaking by ascending piece index inside a bucket; the
walk covers exactly the indexes below the piece count, and with an empty
claim set `ask_for_block` returns the request for the first walked piece
the remote has that is not verified. -/
theorem C6_theorem :
    (∀ (swarm : List RPeer) (n : Nat),
        (rarityWalk swarm n).Pairwise (fun i j =>
          pieceRarity swarm j < pieceRarity swarm i ∨
            (pieceRarity swarm i = pieceRarity swarm j ∧ i < j))) ∧
    (∀ (swarm : List RPeer) (n i : Nat), i ∈ rarityWalk swarm n ↔ i < n) ∧
    (∀ (t : TorrentSt) (remote : RPeer), t.downloading = [] →
        ask_for_block t remote =
          (rarityWalk t.swarm t.pieces.length).findSome? (fun i =>
            if pfHas remote.piecefield i && !(t.pieces.getD i dummyPiece).verified then
              some (.request i 0 BLOCK_REQUEST_SIZE)
            else none)) := by
  refine ⟨?_, ?_, ?_⟩
  · intro swarm n
    unfold rarityWalk
    rw [List.pairwise_flatMap]
    constructor
    · intro r hr
      rw [bucket_eq_filter]
      have hfil : ((List.range n).filter (fun i => pieceRarity swarm i == r)).Pairwise (· < ·) :=
        List.Pairwise.sublist (List.filter_sublist _) (List.pairwise_lt_range n)
      refine hfil.imp_of_mem ?_
      intro a b ha hb hab
      have hra : pieceRarity swarm a = r := by
        have := (List.mem_filter.mp ha).2
        simpa using this
      have hrb : pieceRarity swarm b = r := by
        have := (List.mem_filter.mp hb).2
        simpa using this
      exact Or.inr ⟨hra.trans hrb.symm, hab⟩
    · have hstrict := sortDesc_strict _ (calculate_rarity_keys_nodup swarm n)
      refine hstrict.imp ?_
      intro r1 r2 h12
      intro x hx y hy
      rw [bucket_eq_filter] at hx hy
      have hrx : pieceRarity swarm x = r1 := by
        have := (List.mem_filter.mp hx).2
        simpa using this
      have hry : pieceRarity swarm y = r2 := by
        have := (List.mem_filter.mp hy).2
        simpa using this
      exact Or.inl (by rw [hrx, hry]; exact h12)
  · intro swarm n i
    unfold rarityWalk
    rw [List.mem_flatMap]
    constructor
    · rintro ⟨r, _, hi⟩
      rw [bucket_eq_filter] at hi
      exact List.mem_range.mp (List.mem_filter.mp hi).1
    · intro hi
      refine ⟨pieceRarity swarm i, ?_, ?_⟩
      · rw [(sortDesc_perm _).mem_iff, mem_keys_iff, calculate_rarity_lookup]
        have hmem : i ∈ (List.range n).filter
            (fun j => pieceRarity swarm j == pieceRarity swarm i) :=
          List.mem_filter.mpr ⟨List.mem_range.mpr hi, by simp⟩
        intro hEq
        split at hEq
        · rename_i hEmp
          rw [List.isEmpty_iff] at hEmp
          rw [hEmp] at hmem
          exact absurd hmem (List.not_mem_nil i)
        · exact Option.noConfusion hEq
      · rw [bucket_eq_filter]
        exact List.mem_filter.mpr ⟨List.mem_range.mpr hi, by simp⟩
  · intro t remote hdl
    unfold ask_for_block rarityWalk
    rw [hdl]
    simp only [List.find?_nil]
    rw [findSome?_flatMap]
    congr 1
    funext r
    congr 1
    funext i
    simp

/-- C6 (witness): the amended statement on the §8.6 scenario: the walk is
0, 2 (count 2), then 1, 3 (count 1), and `ask_for_block` follows it. -/
theorem C6_witness :
    ask_for_block exTorrent6 exAllPeer =
      (rarityWalk exTorrent6.swarm exTorrent6.pieces.length).findSome? (fun i =>
        if pfHas exAllPeer.piecefield i && !(exTorrent6.pieces.getD i dummyPiece).verified then
          some (.request i 0 BLOCK_REQUEST_SIZE)
        else none) ∧
    rarityWalk exTorrent6.swarm exTorrent6.pieces.length = [0, 2, 1, 3] :=
  ⟨C6_theorem.2.2 exTorrent6 exAllPeer rfl, by decide⟩

/-! ## Round-tripping the bencoding codec (towards C3) -/

/-- Digits produced by `toDigitsFuel` are ASCII digits. -/
theorem toDigitsFuel_digits :
    ∀ (fuel n : Nat), ∀ d ∈ toDigitsFuel fuel n, is_byte_digit d = true := by
  intro fuel
  induction fuel with
  | zero =>
    intro n d hd
    simp [toDigitsFuel] at hd
  | succ fuel ih =>
    intro n d hd
    rw [toDigitsFuel] at hd
    by_cases hn : n = 0
    · rw [if_pos hn] at hd
      simp at hd
    · rw [if_neg hn] at hd
      rcases List.mem_append.mp hd with h1 | h2
      · exact ih (n / 10) d h1
      · have hdd : d = n % 10 + 48 := by
          simpa using h2
        subst hdd
        have : n % 10 < 10 := Nat.mod_lt n (by omega)
        simp [is_byte_digit]
        omega

/-- Folding the digit-accumulator over `toDigitsFuel` recovers the number
(with an arbitrary starting accumulator). -/
theorem toDigitsFuel_foldl :
    ∀ (fuel n : Nat), n ≤ fuel → ∀ acc : Nat,
      (toDigitsFuel fuel n).foldl (fun a d => 10 * a + (d - 48)) acc
        = acc * 10 ^ (toDigitsFuel fuel n).length + n := by
  intro fuel
  induction fuel with
  | zero =>
    intro n hn acc
    have : n = 0 := by omega
    subst this
    simp [toDigitsFuel]
  | succ fuel ih =>
    intro n hn acc
    rw [toDigitsFuel]
    by_cases hn0 : n = 0
    · subst hn0
      simp
    · rw [if_neg hn0]
      have hrec : n / 10 ≤ fuel := by
        have := Nat.div_lt_self (Nat.pos_of_ne_zero hn0) (by omega : 1 < 10)
        omega
      rw [List.foldl_append, ih (n / 10) hrec acc]
      simp only [List.foldl_cons, List.foldl_nil, List.length_append, List.length_cons,
        List.length_nil]
      have hmod : n % 10 + 48 - 48 = n % 10 := by omega
      rw [hmod, Nat.pow_succ]
      have := Nat.div_add_mod n 10
      ring_nf
      omega

/-- `natStr` is never empty. -/
theorem natStr_ne_nil (n : Nat) : natStr n ≠ [] := by
  unfold natStr
  by_cases hn : n = 0
  · simp [hn]
  · rw [if_neg hn]
    obtain ⟨fuel, rfl⟩ : ∃ f, n = f + 1 := ⟨n - 1, by omega⟩
    rw [toDigitsFuel, if_neg hn]
    simp

/-- All bytes of `natStr n` are ASCII digits. -/
theorem natStr_digits (n : Nat) : ∀ d ∈ natStr n, is_byte_digit d = true := by
  unfold natStr
  by_cases hn : n = 0
  · intro d hd
    rw [if_pos hn] at hd
    have : d = 48 := by simpa using hd
    subst this
    rfl
  · rw [if_neg hn]
    exact toDigitsFuel_digits n n

/-- Parsing the decimal rendering recovers the number. -/
theorem parse_natStr (n : Nat) : parseDigits (natStr n) = n := by
  unfold natStr parseDigits
  by_cases hn : n = 0
  · simp [hn]
  · rw [if_neg hn, toDigitsFuel_foldl n n (Nat.le_refl n) 0]
    simp

/-- `takeWhile` stops exactly at the first failing byte. -/
theorem takeWhile_append_stop (p : Nat → Bool) (l1 : Bytes) (c : Nat) (l2 : Bytes)
    (h1 : ∀ a ∈ l1, p a = true) (hc : p c = false) :
    (l1 ++ c :: l2).takeWhile p = l1 := by
  induction l1 with
  | nil => simp [List.takeWhile_cons, hc]
  | cons a tl ih =>
    have ha : p a = true := h1 a (List.mem_cons_self a tl)
    rw [List.cons_append, List.takeWhile_cons, ha]
    simp only [if_true]
    rw [ih (fun b hb => h1 b (List.mem_cons_of_mem a hb))]

/-- `extract_int` on a digit run followed by a non-digit byte. -/
theorem extract_int_spec (ds : Bytes) (c : Nat) (rest : Bytes)
    (hds : ∀ d ∈ ds, is_byte_digit d = true) (hne : ds ≠ [])
    (hc : is_byte_digit c = false) :
    extract_int (ds ++ c :: rest) = .ok (parseDigits ds, c :: rest) := by
  unfold extract_int
  rw [takeWhile_append_stop is_byte_digit ds c rest hds hc]
  have hlen : ¬(ds.length = (ds ++ c :: rest).length) := by
    simp only [List.length_append, List.length_cons]
    omega
  rw [if_neg hlen]
  have hempty : ds.isEmpty = false := by
    cases ds with
    | nil => exact absurd rfl hne
    | cons a tl => rfl
  simp only [hempty, Bool.false_eq_true, if_false]
  rw [List.drop_left]

/-- Head dispatch of `decodeF` for an integer. -/
theorem decodeF_int_head (f : Nat) (tl : Bytes) :
    decodeF (f + 1) (105 :: tl) = decode_int (105 :: tl) := rfl

/-- Head dispatch of `decodeF` for a list. -/
theorem decodeF_list_head (f : Nat) (tl : Bytes) :
    decodeF (f + 1) (108 :: tl) = decode_list_loop f tl [] := rfl

/-- Head dispatch of `decodeF` for a dictionary. -/
theorem decodeF_dict_head (f : Nat) (tl : Bytes) :
    decodeF (f + 1) (100 :: tl) = decode_dict_loop f tl [] := rfl

/-- One unfolding of the list-decode loop when the element decode is known. -/
theorem decode_list_loop_step (g : Nat) (rem : Bytes) (acc : List PyVal) (v : PyVal)
    (rem' : Bytes) (h : decodeF g rem = .ok (some v, some rem')) :
    decode_list_loop (g + 1) rem acc =
      if rem'.isEmpty || rem'.head? = some 101 then
        .ok (some (.pylist (acc ++ [v])), some (rem'.drop 1))
      else decode_list_loop g rem' (acc ++ [v]) := by
  rw [decode_list_loop, h]

/-- One unfolding of the dict-decode loop when both decodes are known and
the key is hashable. -/
theorem decode_dict_loop_step (g : Nat) (rem : Bytes) (acc : List (PyVal × PyVal))
    (k : PyVal) (r1 : Bytes) (v : PyVal) (rem' : Bytes)
    (hk : decodeF g rem = .ok (some k, some r1))
    (hv : decodeF g r1 = .ok (some v, some rem'))
    (hhash : pyHashable k = true) :
    decode_dict_loop (g + 1) rem acc =
      if rem'.isEmpty || rem'.head? = some 101 then
        .ok (some (.pydict (dictAssign acc k v)), some (rem'.drop 1))
      else decode_dict_loop g rem' (dictAssign acc k v) := by
  simp only [decode_dict_loop, hk, hv, hhash, if_true]

/-- When no accumulated key equals the new key, the dictionary assignment
is a plain append. -/
theorem dictAssign_append (acc : List (PyVal × PyVal)) (k v : PyVal)
    (h : ∀ kv ∈ acc, pyKeyEq kv.1 k = false) :
    dictAssign acc k v = acc ++ [(k, v)] := by
  unfold dictAssign
  have hany : acc.any (fun kv => pyKeyEq kv.1 k) = false := by
    rw [List.any_eq_false]
    intro kv hkv
    simp [h kv hkv]
  rw [hany]
  simp

/-- Destructuring a successful `encodeItems` on a cons. -/
theorem encodeItems_cons_eq (v : PyVal) (vs : List PyVal) (body : Bytes)
    (h : encodeItems (v :: vs) = some body) :
    ∃ bv bs, encode v = some bv ∧ encodeItems vs = some bs ∧ body = bv ++ bs := by
  rw [encodeItems] at h
  cases hv : encode v with
  | none => rw [hv] at h; exact absurd h (by simp)
  | some bv =>
    cases hvs : encodeItems vs with
    | none => rw [hv, hvs] at h; exact absurd h (by simp)
    | some bs =>
      rw [hv, hvs] at h
      exact ⟨bv, bs, rfl, rfl, (Option.some.inj h).symm⟩

/-- Destructuring a successful `encodeKVs` on a cons. -/
theorem encodeKVs_cons_eq (k v : PyVal) (kvs : List (PyVal × PyVal)) (body : Bytes)
    (h : encodeKVs ((k, v) :: kvs) = some body) :
    ∃ bk bv bs, encode k = some bk ∧ encode v = some bv ∧ encodeKVs kvs = some bs ∧
      body = bk ++ bv ++ bs := by
  rw [encodeKVs] at h
  cases hk : encode k with
  | none => rw [hk] at h; exact absurd h (by simp)
  | some bk =>
    cases hv : encode v with
    | none => rw [hk, hv] at h; exact absurd h (by simp)
    | some bv =>
      cases hvs : encodeKVs kvs with
      | none => rw [hk, hv, hvs] at h; exact absurd h (by simp)
      | some bs =>
        rw [hk, hv, hvs] at h
        exact ⟨bk, bv, bs, rfl, rfl, rfl, (Option.some.inj h).symm⟩

/-- `encodeItems` succeeds when every member's encode does. -/
theorem encodeItems_isSome (xs : List PyVal) (h : ∀ v ∈ xs, (encode v).isSome) :
    (encodeItems xs).isSome := by
  induction xs with
  | nil => rfl
  | cons v vs ih =>
    obtain ⟨bv, hbv⟩ := Option.isSome_iff_exists.mp (h v (List.mem_cons_self v vs))
    obtain ⟨bs, hbs⟩ := Option.isSome_iff_exists.mp
      (ih (fun w hw => h w (List.mem_cons_of_mem v hw)))
    rw [encodeItems, hbv, hbs]
    rfl

/-- `encodeKVs` succeeds when every key's and value's encode does. -/
theorem encodeKVs_isSome (kvs : List (PyVal × PyVal))
    (h : ∀ kv ∈ kvs, (encode kv.1).isSome ∧ (encode kv.2).isSome) :
    (encodeKVs kvs).isSome := by
  induction kvs with
  | nil => rfl
  | cons kv tl ih =>
    obtain ⟨k, v⟩ := kv
    obtain ⟨bk, hbk⟩ := Option.isSome_iff_exists.mp (h (k, v) (List.mem_cons_self _ tl)).1
    obtain ⟨bv, hbv⟩ := Option.isSome_iff_exists.mp (h (k, v) (List.mem_cons_self _ tl)).2
    obtain ⟨bs, hbs⟩ := Option.isSome_iff_exists.mp
      (ih (fun w hw => h w (List.mem_cons_of_mem _ hw)))
    rw [encodeKVs, hbk, hbv, hbs]
    rfl

/-- On the good fragment, `encode` always succeeds. -/
theorem enc_good_isSome : ∀ (N : Nat) (v : PyVal), sizeOf v ≤ N → Good v →
    (encode v).isSome := by
  intro N
  induction N with
  | zero =>
    intro v hsz hg
    exfalso
    cases hg <;> simp at hsz
  | succ N ih =>
    intro v hsz hg
    cases hg with
    | int n => rfl
    | list xs hne hall =>
      have hsome : (encodeItems xs).isSome := by
        refine encodeItems_isSome xs (fun w hw => ?_)
        refine ih w ?_ (hall w hw)
        have h1 := List.sizeOf_lt_of_mem hw
        simp at hsz
        omega
      obtain ⟨body, hbody⟩ := Option.isSome_iff_exists.mp hsome
      rw [encode, hbody]
      rfl
    | dict kvs hne hk hv hhash hnodup =>
      have hsome : (encodeKVs kvs).isSome := by
        refine encodeKVs_isSome kvs (fun kv hkv => ?_)
        obtain ⟨a, b⟩ := kv
        have h1 := List.sizeOf_lt_of_mem hkv
        simp only [Prod.mk.sizeOf_spec] at h1
        simp at hsz
        exact ⟨ih a (by omega) (hk (a, b) hkv), ih b (by omega) (hv (a, b) hkv)⟩
      obtain ⟨body, hbody⟩ := Option.isSome_iff_exists.mp hsome
      rw [encode, hbody]
      rfl

/-- The first byte of a good value's encoding is `i`, `l` or `d`, and the
encoding has at least two bytes. -/
theorem enc_shape (v : PyVal) (hg : Good v) (bs : Bytes) (henc : encode v = some bs) :
    ∃ c tl, bs = c :: tl ∧ tl ≠ [] ∧ (c = 105 ∨ c = 108 ∨ c = 100) := by
  cases hg with
  | int n =>
    rw [encode] at henc
    refine ⟨105, intStr n ++ [101], by simpa using (Option.some.inj henc).symm, by simp,
      Or.inl rfl⟩
  | list xs hne hall =>
    rw [encode] at henc
    cases hei : encodeItems xs with
    | none => rw [hei] at henc; exact absurd henc (by simp)
    | some body =>
      rw [hei] at henc
      exact ⟨108, body ++ [101], by simpa using (Option.some.inj henc).symm, by simp,
        Or.inr (Or.inl rfl)⟩
  | dict kvs hne hk hv hhash hnodup =>
    rw [encode] at henc
    cases hei : encodeKVs kvs with
    | none => rw [hei] at henc; exact absurd henc (by simp)
    | some body =>
      rw [hei] at henc
      exact ⟨100, body ++ [101], by simpa using (Option.some.inj henc).symm, by simp,
        Or.inr (Or.inr rfl)⟩

/-- A non-empty good item list encodes to a byte string whose first byte is
not `e`. -/
theorem encodeItems_head (w : PyVal) (ws : List PyVal) (bs : Bytes)
    (hg : Good w) (h : encodeItems (w :: ws) = some bs) :
    ∃ c tl, bs = c :: tl ∧ c ≠ 101 := by
  obtain ⟨bw, brest, hbw, _, rfl⟩ := encodeItems_cons_eq w ws bs h
  obtain ⟨c, tl, rfl, _, hc⟩ := enc_shape w hg bw hbw
  refine ⟨c, tl ++ brest, by simp, ?_⟩
  rcases hc with h1 | h2 | h3 <;> omega

/-- Same for key/value pair lists. -/
theorem encodeKVs_head (kv : PyVal × PyVal) (kvs : List (PyVal × PyVal)) (bs : Bytes)
    (hg : Good kv.1) (h : encodeKVs (kv :: kvs) = some bs) :
    ∃ c tl, bs = c :: tl ∧ c ≠ 101 := by
  obtain ⟨k, v⟩ := kv
  obtain ⟨bk, bv, brest, hbk, _, _, rfl⟩ := encodeKVs_cons_eq k v kvs bs h
  obtain ⟨c, tl, rfl, _, hc⟩ := enc_shape k hg bk hbk
  refine ⟨c, tl ++ bv ++ brest, by simp, ?_⟩
  rcases hc with h1 | h2 | h3 <;> omega

/-- Decoding the encoding of a non-negative integer. -/
theorem dec_enc_int (m : Nat) (rest : Bytes) (f : Nat) :
    decodeF (f + 1) ((105 :: natStr m ++ [101]) ++ rest)
      = .ok (some (.pyint m), some rest) := by
  have harg : ((105 :: natStr m ++ [101]) ++ rest) = 105 :: (natStr m ++ 101 :: rest) := by
    simp
  rw [harg, decodeF_int_head]
  unfold decode_int
  have hdrop : (105 :: (natStr m ++ 101 :: rest)).drop 1 = natStr m ++ 101 :: rest := rfl
  rw [hdrop, extract_int_spec (natStr m) 101 rest (natStr_digits m) (natStr_ne_nil m) rfl,
    parse_natStr]
  rfl

/-- The list-decode loop consumes the encodings of the pending values up to
the closing `e`, appending the values to the accumulator. -/
theorem decode_list_loop_enc :
    ∀ (pending : List PyVal), pending ≠ [] →
      (∀ v ∈ pending, Good v ∧ DecencOK v) →
      ∀ (body : Bytes), encodeItems pending = some body →
      ∀ (acc : List PyVal) (rest : Bytes) (g : Nat),
        2 * (body.length + 1 + rest.length) + 3 ≤ g →
        decode_list_loop g (body ++ 101 :: rest) acc
          = .ok (some (.pylist (acc ++ pending)), some rest) := by
  intro pending
  induction pending with
  | nil => intro hne; exact absurd rfl hne
  | cons v vs ih =>
    intro _ hall body henc acc rest g hg
    obtain ⟨bv, bs', hbv, hbs', rfl⟩ := encodeItems_cons_eq v vs body henc
    obtain ⟨g', rfl⟩ : ∃ g', g = g' + 1 := ⟨g - 1, by omega⟩
    have harg : (bv ++ bs') ++ 101 :: rest = bv ++ (bs' ++ 101 :: rest) := by
      simp
    have hinner : decodeF g' (bv ++ (bs' ++ 101 :: rest))
        = .ok (some v, some (bs' ++ 101 :: rest)) := by
      refine (hall v (List.mem_cons_self v vs)).2 bv hbv (bs' ++ 101 :: rest) g' ?_
      simp only [List.length_append, List.length_cons] at hg ⊢
      omega
    rw [harg, decode_list_loop_step g' _ acc v _ hinner]
    cases vs with
    | nil =>
      have hnil : bs' = [] := by
        rw [encodeItems] at hbs'
        exact (Option.some.inj hbs').symm
      subst hnil
      simp
    | cons w ws =>
      obtain ⟨c, tl2, hbs'eq, hc⟩ :=
        encodeItems_head w ws bs' (hall w (by simp)).1 hbs'
      subst hbs'eq
      obtain ⟨cv, tlv, hbveq, _, _⟩ := enc_shape v (hall v (by simp)).1 bv hbv
      have hbvlen : 1 ≤ bv.length := by
        rw [hbveq]
        simp
      have hcond : (((c :: tl2) ++ 101 :: rest).isEmpty
          || decide (((c :: tl2) ++ 101 :: rest).head? = some 101)) = false := by
        simp [hc]
      rw [hcond]
      simp only [Bool.false_eq_true, if_false]
      have hrec := ih (by simp) (fun u hu => hall u (List.mem_cons_of_mem v hu)) (c :: tl2)
        hbs' (acc ++ [v]) rest g' (by
          simp only [List.length_append, List.length_cons] at hg ⊢
          omega)
      rw [hrec]
      simp

/-- The dict-decode loop consumes the encodings of the pending pairs up to
the closing `e`.  With hashable keys, the pending keys pairwise distinct
and no pending key already present in the accumulator, every assignment is
a plain append, so the pairs end up appended to the accumulator. -/
theorem decode_dict_loop_enc :
    ∀ (pending : List (PyVal × PyVal)), pending ≠ [] →
      (∀ kv ∈ pending, (Good kv.1 ∧ DecencOK kv.1) ∧ (Good kv.2 ∧ DecencOK kv.2)) →
      (∀ kv ∈ pending, pyHashable kv.1 = true) →
      (pending.map Prod.fst).Pairwise (fun a b => pyKeyEq a b = false) →
      ∀ (body : Bytes), encodeKVs pending = some body →
      ∀ (acc : List (PyVal × PyVal)) (rest : Bytes) (g : Nat),
        (∀ kv ∈ acc, ∀ kv' ∈ pending, pyKeyEq kv.1 kv'.1 = false) →
        2 * (body.length + 1 + rest.length) + 3 ≤ g →
        decode_dict_loop g (body ++ 101 :: rest) acc
          = .ok (some (.pydict (acc ++ pending)), some rest) := by
  intro pending
  induction pending with
  | nil => intro hne; exact absurd rfl hne
  | cons kv kvs ih =>
    obtain ⟨k, v⟩ := kv
    intro _ hall hhash hnodup body henc acc rest g hacc hg
    obtain ⟨bk, bv, bs', hbk, hbv, hbs', rfl⟩ := encodeKVs_cons_eq k v kvs body henc
    obtain ⟨g', rfl⟩ : ∃ g', g = g' + 1 := ⟨g - 1, by omega⟩
    have harg : (bk ++ bv ++ bs') ++ 101 :: rest
        = bk ++ (bv ++ (bs' ++ 101 :: rest)) := by
      simp
    have hkey : decodeF g' (bk ++ (bv ++ (bs' ++ 101 :: rest)))
        = .ok (some k, some (bv ++ (bs' ++ 101 :: rest))) := by
      refine (hall (k, v) (List.mem_cons_self _ kvs)).1.2 bk hbk _ g' ?_
      simp only [List.length_append, List.length_cons] at hg ⊢
      omega
    have hval : decodeF g' (bv ++ (bs' ++ 101 :: rest))
        = .ok (some v, some (bs' ++ 101 :: rest)) := by
      refine (hall (k, v) (List.mem_cons_self _ kvs)).2.2 bv hbv _ g' ?_
      simp only [List.length_append, List.length_cons] at hg ⊢
      omega
    rw [harg, decode_dict_loop_step g' _ acc k _ v _ hkey hval
      (hhash (k, v) (List.mem_cons_self _ kvs))]
    have hassign : dictAssign acc k v = acc ++ [(k, v)] :=
      dictAssign_append acc k v
        (fun kw hkw => hacc kw hkw (k, v) (List.mem_cons_self _ kvs))
    rw [hassign]
    have hpw : (∀ b ∈ kvs.map Prod.fst, pyKeyEq k b = false) ∧
        (kvs.map Prod.fst).Pairwise (fun a b => pyKeyEq a b = false) := by
      rw [List.map_cons, List.pairwise_cons] at hnodup
      exact hnodup
    cases kvs with
    | nil =>
      have hnil : bs' = [] := by
        rw [encodeKVs] at hbs'
        exact (Option.some.inj hbs').symm
      subst hnil
      simp
    | cons kw kws =>
      obtain ⟨c, tl2, hbs'eq, hc⟩ :=
        encodeKVs_head kw kws bs' (hall kw (by simp)).1.1 hbs'
      subst hbs'eq
      obtain ⟨ck, tlk, hbkeq, _, _⟩ :=
        enc_shape k (hall (k, v) (by simp)).1.1 bk hbk
      have hbklen : 1 ≤ bk.length := by
        rw [hbkeq]
        simp
      have hcond : (((c :: tl2) ++ 101 :: rest).isEmpty
          || decide (((c :: tl2) ++ 101 :: rest).head? = some 101)) = false := by
        simp [hc]
      rw [hcond]
      simp only [Bool.false_eq_true, if_false]
      have hacc' : ∀ kw1 ∈ acc ++ [(k, v)], ∀ kv' ∈ kw :: kws,
          pyKeyEq kw1.1 kv'.1 = false := by
        intro kw1 hkw1 kv' hkv'
        rcases List.mem_append.mp hkw1 with hmem | hmem
        · exact hacc kw1 hmem kv' (List.mem_cons_of_mem _ hkv')
        · have hkw1eq : kw1 = (k, v) := by simpa using hmem
          subst hkw1eq
          exact hpw.1 kv'.1 (List.mem_map_of_mem Prod.fst hkv')
      have hrec := ih (by simp) (fun u hu => hall u (List.mem_cons_of_mem _ hu))
        (fun u hu => hhash u (List.mem_cons_of_mem _ hu)) hpw.2 (c :: tl2)
        hbs' (acc ++ [(k, v)]) rest g' hacc' (by
          simp only [List.length_append, List.length_cons] at hg ⊢
          omega)
      rw [hrec]
      simp

/-- On the good fragment, decoding inverts encoding (by strong induction on
the size of the value). -/
theorem dec_enc_aux : ∀ (N : Nat) (v : PyVal), sizeOf v ≤ N → Good v → DecencOK v := by
  intro N
  induction N with
  | zero =>
    intro v hsz hg
    exfalso
    cases hg <;> simp at hsz
  | succ N ih =>
    intro v hsz hg
    cases hg with
    | int n =>
      intro bs henc rest f hf
      rw [encode] at henc
      have hint : intStr n = natStr n := by
        unfold intStr
        rw [if_neg (by simp), Int.natAbs_ofNat]
      rw [hint] at henc
      obtain ⟨f', rfl⟩ : ∃ f', f = f' + 1 := ⟨f - 1, by omega⟩
      rw [← Option.some.inj henc]
      exact dec_enc_int n rest f'
    | list xs hne hall =>
      intro bs henc rest f hf
      rw [encode] at henc
      cases hei : encodeItems xs with
      | none => rw [hei] at henc; exact absurd henc (by simp)
      | some body =>
        rw [hei] at henc
        have hbs : bs = 108 :: (body ++ [101]) := by
          simpa using (Option.some.inj henc).symm
        subst hbs
        obtain ⟨f', rfl⟩ : ∃ f', f = f' + 1 := ⟨f - 1, by omega⟩
        have harg : (108 :: (body ++ [101])) ++ rest = 108 :: (body ++ 101 :: rest) := by
          simp
        rw [harg, decodeF_list_head]
        have hloop := decode_list_loop_enc xs hne
          (fun w hw => ⟨hall w hw, ih w (by
              have h1 := List.sizeOf_lt_of_mem hw
              simp at hsz
              omega) (hall w hw)⟩)
          body hei [] rest f' (by
            simp only [List.length_cons, List.length_append] at hf ⊢
            omega)
        rw [hloop]
        simp
    | dict kvs hne hk hv hhash hnodup =>
      intro bs henc rest f hf
      rw [encode] at henc
      cases hei : encodeKVs kvs with
      | none => rw [hei] at henc; exact absurd henc (by simp)
      | some body =>
        rw [hei] at henc
        have hbs : bs = 100 :: (body ++ [101]) := by
          simpa using (Option.some.inj henc).symm
        subst hbs
        obtain ⟨f', rfl⟩ : ∃ f', f = f' + 1 := ⟨f - 1, by omega⟩
        have harg : (100 :: (body ++ [101])) ++ rest = 100 :: (body ++ 101 :: rest) := by
          simp
        rw [harg, decodeF_dict_head]
        have hloop := decode_dict_loop_enc kvs hne
          (fun kv hkv => by
            obtain ⟨a, b⟩ := kv
            have h1 := List.sizeOf_lt_of_mem hkv
            simp only [Prod.mk.sizeOf_spec] at h1
            simp at hsz
            exact ⟨⟨hk (a, b) hkv, ih a (by omega) (hk (a, b) hkv)⟩,
                   ⟨hv (a, b) hkv, ih b (by omega) (hv (a, b) hkv)⟩⟩)
          hhash hnodup
          body hei [] rest f' (fun kv hkv => absurd hkv (List.not_mem_nil kv)) (by
            simp only [List.length_cons, List.length_append] at hf ⊢
            omega)
        rw [hloop]
        simp

/-- C3 (amended): the bencoding codec round-trips on the fragment of the
value grammar made of non-negative integers and non-empty lists and
dictionaries of such values whose keys are hashable and pairwise distinct:
`encode` succeeds, `decode(encode(v))` yields `v` with empty remainder, and
`encode` applied to the decoded value reproduces the input byte-for-byte.
(Byte strings break both directions — see the counterexample — as do
Python `str` values, unhashable or duplicate dictionary keys (the
dictionary assignment raises `TypeError` or overwrites), negative integers and
empty containers.) -/
theorem C3_theorem : ∀ v : PyVal, Good v →
    (encode v).isSome = true ∧
    ∀ bs, encode v = some bs →
      decode bs = .ok (some v, some ([] : Bytes)) ∧
      ∀ w rem, decode bs = .ok (some w, some rem) → encode w = some bs ∧ rem = [] := by
  intro v hg
  refine ⟨enc_good_isSome (sizeOf v) v (Nat.le_refl _) hg, ?_⟩
  intro bs henc
  have hd : decode bs = .ok (some v, some ([] : Bytes)) := by
    have hde := dec_enc_aux (sizeOf v) v (Nat.le_refl _) hg bs henc [] (2 * bs.length + 2)
      (by simp)
    rw [List.append_nil] at hde
    unfold decode
    exact hde
  refine ⟨hd, ?_⟩
  intro w rem hw
  rw [hd] at hw
  have h1 := Except.ok.inj hw
  have hveq : v = w := Option.some.inj (congrArg Prod.fst h1)
  have hrem : rem = [] := (Option.some.inj (congrArg Prod.snd h1)).symm
  subst hveq
  exact ⟨henc, hrem⟩

/-- C3 (witness): the amended round-trip on the list `[24, 72]`, whose
encoding is `li24ei72ee`. -/
theorem C3_witness :
    decode [108, 105, 50, 52, 101, 105, 55, 50, 101, 101]
      = .ok (some (.pylist [.pyint 24, .pyint 72]), some ([] : Bytes)) := by
  have hg : Good (.pylist [.pyint 24, .pyint 72]) := by
    refine Good.list _ (by simp) ?_
    intro w hw
    rcases List.mem_cons.mp hw with h | h
    · subst h
      exact Good.int 24
    · have hw2 : w = .pyint 72 := by simpa using h
      subst hw2
      exact Good.int 72
  exact ((C3_theorem _ hg).2 [108, 105, 50, 52, 101, 105, 55, 50, 101, 101] rfl).1

end Bridge
